import Mathlib

/-!
# SwRTFReader::Read (sw/source/filter/rtf/swparrtf.cxx)

A shallow embedding of the RTF paste glue: the reader splits the paragraph
under the cursor twice, hands the empty paragraph in the middle to the RTF
importer, and afterwards joins the two split boundaries back together.

`Read`, `MergeLeft` (lines 115-149) and `MergeRight` (lines 151-171) follow
the source statement by statement.  The document core they call (SplitNode,
CanJoinNext, JoinNext, ...) is not part of the sources at hand; each of these
collaborators is modelled from the specification and marked as such.
-/

namespace SwRTF

/-! ## Data model -/

/-- Item ids of direct paragraph formatting.  Only the list identity is told
apart by `Read` (line 140); every other id is `RES_FMT n`. -/
inductive WhichId where
  | RES_PARATR_LIST_ID
  | RES_FMT (n : Nat)
deriving DecidableEq

/-- One formatting item: an id and its value. -/
structure SfxPoolItem where
  which : WhichId
  value : Nat
deriving DecidableEq

/-- An inline hint: a formatting item applied to the span `[start, stop)`. -/
structure SwTextAttr where
  start : Nat
  stop : Nat
  item : SfxPoolItem
deriving DecidableEq

/-- Paragraph styles (text format collections), by pool id. -/
abbrev SwTextFormatColl := Nat

/-- The neutral paragraph style assigned to the gap paragraph (line 79). -/
def RES_POOLCOLL_STANDARD : SwTextFormatColl := 0

/-- A paragraph: its text, its paragraph style, its own (non-inherited)
direct formatting and its inline hints. -/
structure SwTextNode where
  text : List Char
  coll : SwTextFormatColl
  attrs : List SfxPoolItem
  hints : List SwTextAttr
deriving DecidableEq

/-- The nodes of the document array: paragraphs, section boundaries and any
other structural node. -/
inductive SwNode where
  | textNode (t : SwTextNode)
  | sectionNode
  | otherNode
deriving DecidableEq

/-- A position: index of the node in the nodes array and offset in its text. -/
structure SwPosition where
  node : Nat
  content : Nat
deriving DecidableEq

/-- The mutating calls `Read` makes into the document core, as logged. -/
inductive Call where
  | SplitNode (pos : SwPosition)
  | SetTextFormatColl (node : Nat) (coll : SwTextFormatColl)
  | Assign (pos : SwPosition)
  | FormatToTextAttr (recv arg : Nat)
  | ChgFormatColl (node : Nat) (coll : SwTextFormatColl)
  | CopyCollFormat (src dest : Nat)
  | JoinNext (node : Nat)
  | JoinPrev (node : Nat)
deriving DecidableEq

/-- The document together with the cursors and node indices registered with
it while `Read` runs.  All of them are rebased by the tree on every split and
join. -/
structure DocState where
  /-- the nodes array, `rDoc.GetNodes()` -/
  nodes : List SwNode
  /-- the caller's cursor, `rPam.GetPoint()` -/
  rPam : SwPosition
  /-- the marker created in step 1 (line 62) -/
  xInsertPosition : SwPosition
  /-- the value of `*pSttNdIdx` -/
  sttNdIdx : Nat
  /-- the value of `*pSttNdIdx2` -/
  sttNdIdx2 : Nat
  /-- the output marker, `aPam.GetPoint()` (line 113) -/
  aPam : SwPosition
  /-- the log of mutating calls, oldest first -/
  calls : List Call
deriving DecidableEq

/-- The error codes `Read` can return. -/
inductive ErrCode where
  | ERRCODE_NONE
  | ERR_SWG_READ_ERROR
deriving DecidableEq

/-- The bytes of the input stream `m_pStream`. -/
abbrev SvStream := List Nat

/-- The media descriptor handed to the importer (lines 96-100). -/
structure Descriptor where
  InputStream : SvStream
  InsertMode : Bool
  TextInsertModeRange : SwPosition
deriving DecidableEq

/-- How the call `xFilter->filter(aDescriptor)` ends: it returns its boolean
(which line 104 discards), raises a `uno::Exception`, or raises anything that
is not a `uno::Exception`. -/
inductive FilterOutcome where
  | returned (ok : Bool)
  | unoException
  | otherException
deriving DecidableEq

/-- The importer delegate: given the descriptor it mutates the document (the
registered cursors and indices are rebased along) and ends in one of the three
ways above. -/
abbrev Filter := Descriptor → DocState → FilterOutcome × DocState

/-- The UNO environment of lines 82-95: for each step that can raise, whether
it completes. -/
structure Env where
  /-- `createInstance` yields a non-null service (`UNO_SET_THROW`, line 86) -/
  createInstance : Bool
  /-- the service has `XImporter` (`UNO_QUERY_THROW`, line 88) -/
  queryXImporter : Bool
  /-- the model has `XComponent` (`UNO_QUERY_THROW`, line 89) -/
  queryXComponent : Bool
  /-- `setTargetDocument` completes without raising (line 90) -/
  setTargetDocument : Bool
  /-- the service has `XFilter` (`UNO_QUERY_THROW`, line 95) -/
  queryXFilter : Bool
deriving DecidableEq

/-- How control leaves `Read`: by `return` with a code, or by an exception
that `Read` does not catch. -/
inductive Exit where
  | returned (ret : ErrCode)
  | raised
deriving DecidableEq

/-- What the caller observes: how `Read` was left and the document then. -/
structure ReadResult where
  exit : Exit
  doc : DocState
deriving DecidableEq

/-! ## The document core, modelled from the specification -/

/-- Modelled from the spec: `SwNodeIndex::GetNode().GetTextNode()` (section 6,
getNode; not in the sources).  The paragraph at index `i`, or nothing (a null
pointer) when there is no node at `i` or the node is no paragraph. -/
def GetTextNode (nodes : List SwNode) (i : Nat) : Option SwTextNode :=
  match nodes[i]? with
  | some (.textNode t) => some t
  | _ => none

/-- Apply `f` to the paragraph at index `i`; any other node is left alone. -/
def modifyTextNode (nodes : List SwNode) (i : Nat) (f : SwTextNode → SwTextNode) :
    List SwNode :=
  match nodes[i]? with
  | some (.textNode t) => nodes.set i (.textNode (f t))
  | _ => nodes

/-- The text content of one node. -/
def nodeText : SwNode → List Char
  | .textNode t => t.text
  | _ => []

/-- The total text content of the document: all node texts in order. -/
def docText (nodes : List SwNode) : List Char :=
  (nodes.map nodeText).flatten

/-- Modelled from the spec: marker rebasing on a split (section 4.1; the tree
code is not in the sources).  The node `i` is split at offset `k`: a position
at or after the split offset moves to the right-hand node at offset
(original - split offset), positions in later nodes move one node on. -/
def splitPos (i k : Nat) (p : SwPosition) : SwPosition :=
  if p.node < i then p
  else if p.node = i then (if p.content < k then p else ⟨i + 1, p.content - k⟩)
  else ⟨p.node + 1, p.content⟩

/-- Modelled from the spec: a registered node index follows its node when a
node is inserted at `i` by a split (section 3, Split Record; `SwNodeIndex` is
not in the sources). -/
def splitIdx (i n : Nat) : Nat :=
  if n < i then n else n + 1

/-- The part of a hint that lies before offset `k`. -/
def hintsBefore (k : Nat) (hs : List SwTextAttr) : List SwTextAttr :=
  (hs.filter (fun h => h.start < k)).map (fun h => { h with stop := min h.stop k })

/-- The part of a hint that lies at or after offset `k`, counted from `k`. -/
def hintsAfter (k : Nat) (hs : List SwTextAttr) : List SwTextAttr :=
  (hs.filter (fun h => k < h.stop)).map
    (fun h => { h with start := h.start - k, stop := h.stop - k })

/-- Modelled from the spec: `IDocumentContentOperations::SplitNode` (section
4.2; not in the sources).  The paragraph holding `pos` becomes a left node
(content before the offset, original paragraph style) and a right node
(content at and after the offset, default style); offset 0 and offset = length
give an empty node on one side.  The cursors are rebased, so the split
position itself ends at offset 0 of the right node.  A position that is not in
a paragraph, or beyond its text, splits nothing. -/
def SplitNode (s : DocState) (pos : SwPosition) : DocState :=
  match GetTextNode s.nodes pos.node with
  | some t =>
    if pos.content ≤ t.text.length then
      let l : SwTextNode :=
        { text := t.text.take pos.content, coll := t.coll, attrs := t.attrs,
          hints := hintsBefore pos.content t.hints }
      let r : SwTextNode :=
        { text := t.text.drop pos.content, coll := RES_POOLCOLL_STANDARD, attrs := t.attrs,
          hints := hintsAfter pos.content t.hints }
      { nodes := s.nodes.take pos.node ++ .textNode l :: .textNode r :: s.nodes.drop (pos.node + 1),
        rPam := splitPos pos.node pos.content s.rPam,
        xInsertPosition := splitPos pos.node pos.content s.xInsertPosition,
        sttNdIdx := splitIdx pos.node s.sttNdIdx,
        sttNdIdx2 := splitIdx pos.node s.sttNdIdx2,
        aPam := splitPos pos.node pos.content s.aPam,
        calls := s.calls ++ [.SplitNode pos] }
    else s
  | none => s

/-- The nearest paragraph before node `i`, with the length of its text. -/
def GoPrevious (nodes : List SwNode) : Nat → Option SwPosition
  | 0 => none
  | j + 1 =>
    match GetTextNode nodes j with
    | some t => some ⟨j, t.text.length⟩
    | none => GoPrevious nodes j

/-- Modelled from the spec: `rPam.Move(fnMoveBackward)` (section 4.2, the
cursor steps back from the right node into the gap; `SwPaM::Move` is not in
the sources).  One content position backwards: one character inside a
paragraph, else the end of the nearest paragraph before; nothing moves when
there is none. -/
def Move_fnMoveBackward (s : DocState) : DocState :=
  if 0 < s.rPam.content then
    { s with rPam := ⟨s.rPam.node, s.rPam.content - 1⟩ }
  else
    match GoPrevious s.nodes s.rPam.node with
    | some p => { s with rPam := p }
    | none => s

/-- Modelled from the spec: `SwDoc::SetTextFormatColl` (section 4.5, "assign
gap node a neutral paragraph style"; not in the sources).  The paragraph under
the cursor gets the paragraph style `coll`. -/
def SetTextFormatColl (s : DocState) (coll : SwTextFormatColl) : DocState :=
  { s with
    nodes := modifyTextNode s.nodes s.rPam.node (fun t => { t with coll := coll }),
    calls := s.calls ++ [.SetTextFormatColl s.rPam.node coll] }

/-- Skip section boundaries going forward from index `j`; the first other
node must be a paragraph. -/
def joinNextFrom : List SwNode → Nat → Option Nat
  | [], _ => none
  | .sectionNode :: rest, j => joinNextFrom rest (j + 1)
  | .textNode _ :: _, j => some j
  | .otherNode :: _, _ => none

/-- Skip section boundaries going backward from index `j` (the list holds the
nodes before, nearest first); the first other node must be a paragraph. -/
def joinPrevFrom : List SwNode → Nat → Option Nat
  | [], _ => none
  | .sectionNode :: rest, j => joinPrevFrom rest (j - 1)
  | .textNode _ :: _, j => some j
  | .otherNode :: _, _ => none

/-- Modelled from the spec: `SwTextNode::CanJoinNext` (section 4.4,
"text-bearing"; not in the sources).  It yields the index of the paragraph the
node could join with.  That paragraph need not be the immediate neighbour:
section boundaries in between are skipped, which is why line 123 compares the
index it gets back with `GetIndex() + 1`. -/
def CanJoinNext (nodes : List SwNode) (i : Nat) : Option Nat :=
  joinNextFrom (nodes.drop (i + 1)) (i + 1)

/-- Modelled from the spec: `SwTextNode::CanJoinPrev` (section 4.4, the
mirror image of `CanJoinNext`; not in the sources). -/
def CanJoinPrev (nodes : List SwNode) (i : Nat) : Option Nat :=
  joinPrevFrom (nodes.take i).reverse (i - 1)

/-- Modelled from the spec: `SwPosition::Assign` on the output marker, line
129 (section 4.4, "rebase it to end-of-T"; not in the sources). -/
def Assign (s : DocState) (pos : SwPosition) : DocState :=
  { s with aPam := pos, calls := s.calls ++ [.Assign pos] }

/-- Modelled from the spec: `GetNoCondAttr(which, /*bInParents=*/false)`
(section 4.4, "explicit list-identity override"; not in the sources).  The
item `which` of the paragraph's own direct formatting, if it has one; items
inherited from the paragraph style do not count. -/
def GetNoCondAttr (t : SwTextNode) (which : WhichId) : Option SfxPoolItem :=
  t.attrs.find? (fun a => a.which = which)

/-- The direct formatting of one paragraph turned into inline hints over its
whole text.  The list identity is no run-level property and stays. -/
def toTextAttr (t : SwTextNode) : SwTextNode :=
  { t with
    attrs := t.attrs.filter (fun a => a.which = .RES_PARATR_LIST_ID),
    hints := t.hints ++
      (t.attrs.filter (fun a => a.which ≠ .RES_PARATR_LIST_ID)).map
        (fun a => ⟨0, t.text.length, a⟩) }

/-- Modelled from the spec: `SwTextNode::FormatToTextAttr` (sections 4.4 and
6, convertParagraphFormattingToInlineHints; not in the sources).  Called on
the node `recv` with the node `arg`, the paragraph that is about to lose its
paragraph identity: the paragraph-level formatting of `arg` becomes inline
hints over the span of `arg`.  The node `recv` is left as it is. -/
def FormatToTextAttr (s : DocState) (recv arg : Nat) : DocState :=
  { s with
    nodes := modifyTextNode s.nodes arg toTextAttr,
    calls := s.calls ++ [.FormatToTextAttr recv arg] }

/-- Modelled from the spec: `SwTextNode::ChgFormatColl` (section 6,
setParagraphStyle; not in the sources). -/
def ChgFormatColl (s : DocState) (i : Nat) (coll : SwTextFormatColl) : DocState :=
  { s with
    nodes := modifyTextNode s.nodes i (fun t => { t with coll := coll }),
    calls := s.calls ++ [.ChgFormatColl i coll] }

/-- The items of `src` laid over those of `dest`. -/
def overlayAttrs (src dest : List SfxPoolItem) : List SfxPoolItem :=
  src ++ dest.filter (fun d => !(src.any (fun a => a.which = d.which)))

/-- Modelled from the spec: `SwTextNode::CopyCollFormat` (section 6,
copyParagraphFormatting; not in the sources).  The paragraph `dest` takes the
paragraph style of `src` and the direct paragraph formatting of `src` on top
of its own. -/
def CopyCollFormat (s : DocState) (src dest : Nat) : DocState :=
  match GetTextNode s.nodes src with
  | some u =>
    { s with
      nodes := modifyTextNode s.nodes dest
        (fun t => { t with coll := u.coll, attrs := overlayAttrs u.attrs t.attrs }),
      calls := s.calls ++ [.CopyCollFormat src dest] }
  | none => s

/-- A hint moved `n` characters to the right. -/
def shiftHint (n : Nat) (h : SwTextAttr) : SwTextAttr :=
  { h with start := h.start + n, stop := h.stop + n }

/-- Modelled from the spec: marker rebasing when node `i` takes in node
`i + 1` (section 4.1: a marker in the right-hand side of a join moves behind
the merged left-hand content, whose length is `len`). -/
def joinNextPos (i len : Nat) (p : SwPosition) : SwPosition :=
  if p.node ≤ i then p
  else if p.node = i + 1 then ⟨i, len + p.content⟩
  else ⟨p.node - 1, p.content⟩

/-- Modelled from the spec: a registered node index follows its node when the
node at index `d` is deleted by a join; an index on the deleted node itself
is left where it stands (section 3, Split Record). -/
def joinIdx (d n : Nat) : Nat :=
  if d < n then n - 1 else n

/-- Modelled from the spec: `SwTextNode::JoinNext` (sections 4.4 and 6,
join(nodeId, direction); not in the sources).  The paragraph at `i`, on which
the join is called, and the paragraph right behind it become one paragraph at
index `i`, holding the text and the hints of the first followed by those of
the second.  The paragraph style of the next paragraph is kept.  A receiver
with content loses its paragraph identity: the direct formatting kept is that
of the next paragraph (section 4.4, first case).  An empty receiver has been
given the style of the next paragraph and, a list identity apart, its
formatting before the join: the direct formatting kept is the one the receiver
carries (section 4.4, second case).  Without a paragraph right behind nothing
happens. -/
def JoinNext (s : DocState) (i : Nat) : DocState :=
  match GetTextNode s.nodes i, GetTextNode s.nodes (i + 1) with
  | some t, some u =>
    let m : SwTextNode :=
      { text := t.text ++ u.text, coll := u.coll,
        attrs := if t.text.length = 0 then t.attrs else u.attrs,
        hints := t.hints ++ u.hints.map (shiftHint t.text.length) }
    { nodes := s.nodes.take i ++ .textNode m :: s.nodes.drop (i + 2),
      rPam := joinNextPos i t.text.length s.rPam,
      xInsertPosition := joinNextPos i t.text.length s.xInsertPosition,
      sttNdIdx := joinIdx (i + 1) s.sttNdIdx,
      sttNdIdx2 := joinIdx (i + 1) s.sttNdIdx2,
      aPam := joinNextPos i t.text.length s.aPam,
      calls := s.calls ++ [.JoinNext i] }
  | _, _ => s

/-- Modelled from the spec: marker rebasing when node `i` takes in node
`i - 1` (section 4.1), whose text has length `len`. -/
def joinPrevPos (i len : Nat) (p : SwPosition) : SwPosition :=
  if p.node < i then p
  else if p.node = i then ⟨i - 1, len + p.content⟩
  else ⟨p.node - 1, p.content⟩

/-- Modelled from the spec: `SwTextNode::JoinPrev` (sections 4.4 and 6,
join(nodeId, direction); not in the sources).  The mirror image of `JoinNext`:
the paragraph at `i`, on which the join is called, and the paragraph right
before it become one paragraph at index `i - 1`, holding the text and the
hints of the previous paragraph followed by those of the receiver.  The
paragraph style of the previous paragraph is kept; the direct formatting kept
is that of the previous paragraph when the receiver has content, and the one
the receiver carries when it is empty.  Without a paragraph right before
nothing happens. -/
def JoinPrev (s : DocState) (i : Nat) : DocState :=
  if 0 < i then
    match GetTextNode s.nodes (i - 1), GetTextNode s.nodes i with
    | some v, some t =>
      let m : SwTextNode :=
        { text := v.text ++ t.text, coll := v.coll,
          attrs := if t.text.length = 0 then t.attrs else v.attrs,
          hints := v.hints ++ t.hints.map (shiftHint v.text.length) }
      { nodes := s.nodes.take (i - 1) ++ .textNode m :: s.nodes.drop (i + 1),
        rPam := joinPrevPos i v.text.length s.rPam,
        xInsertPosition := joinPrevPos i v.text.length s.xInsertPosition,
        sttNdIdx := joinIdx (i - 1) s.sttNdIdx,
        sttNdIdx2 := joinIdx (i - 1) s.sttNdIdx2,
        aPam := joinPrevPos i v.text.length s.aPam,
        calls := s.calls ++ [.JoinPrev i] }
    | _, _ => s
  else s

/-- Modelled from the spec: `sw::XTextRangeToSwPaM` (section 4.1, Resolve;
not in the sources).  The output marker is set to where the marker of step 1
stands now. -/
def XTextRangeToSwPaM (s : DocState) : DocState :=
  { s with aPam := s.xInsertPosition }

/-! ## SwRTFReader::Read -/

/-- Lines 115-149, the join of the split node in front of the new content
with the first new node.  `CanJoinNext` yields paragraphs only, so `pDelNd` is
never null when line 135 is reached; the model leaves the state as it is
there. -/
def MergeLeft (s : DocState) : DocState :=
  if s.sttNdIdx ≠ 0 then
    match GetTextNode s.nodes s.sttNdIdx with
    | some pTextNode =>
      match CanJoinNext s.nodes s.sttNdIdx with
      | some aNxtIdx =>
        if s.sttNdIdx + 1 = aNxtIdx then
          let s1 :=
            if s.aPam.node = aNxtIdx then Assign s ⟨s.sttNdIdx, pTextNode.text.length⟩
            else s
          match GetTextNode s1.nodes aNxtIdx with
          | some pDelNd =>
            let s2 :=
              if pTextNode.text.length ≠ 0 then
                FormatToTextAttr s1 aNxtIdx s.sttNdIdx
              else
                let s3 := ChgFormatColl s1 s.sttNdIdx pDelNd.coll
                if (GetNoCondAttr pDelNd .RES_PARATR_LIST_ID).isNone then
                  CopyCollFormat s3 aNxtIdx s.sttNdIdx
                else s3
            JoinNext s2 s.sttNdIdx
          | none => s1
        else s
      | none => s
    | none => s
  else s

/-- Lines 151-171, the join of the split node behind the new content with the
last new node.  `CanJoinPrev` yields paragraphs only, so `pDelNd` is never
null when line 165 is reached; the model leaves the state as it is there. -/
def MergeRight (s : DocState) : DocState :=
  if s.sttNdIdx2 ≠ 0 then
    match GetTextNode s.nodes s.sttNdIdx2 with
    | some pTextNode =>
      match CanJoinPrev s.nodes s.sttNdIdx2 with
      | some aPrevIdx =>
        if s.sttNdIdx2 - 1 = aPrevIdx then
          match GetTextNode s.nodes aPrevIdx with
          | some pDelNd =>
            let s2 :=
              if pTextNode.text.length ≠ 0 then
                FormatToTextAttr s aPrevIdx s.sttNdIdx2
              else
                ChgFormatColl s s.sttNdIdx2 pDelNd.coll
            JoinPrev s2 s.sttNdIdx2
          | none => s
        else s
      | none => s
    | none => s
  else s

/-- Lines 112-171: resolve the marker, then both joins, in this order. -/
def reconcile (s : DocState) : DocState :=
  MergeRight (MergeLeft (XTextRangeToSwPaM s))

/-- Lines 62-79, steps 1 to 4: anchor the marker, split twice at the cursor
remembering the node in front (`pSttNdIdx`) and the node behind
(`pSttNdIdx2`), step back into the empty paragraph in between and give it the
standard paragraph style.  After the split of a paragraph the node index of
the cursor is at least 1, so the subtraction at line 69 is exact. -/
def splitTwice (nodes : List SwNode) (rPam : SwPosition) : DocState :=
  let s0 : DocState :=
    { nodes := nodes, rPam := rPam, xInsertPosition := rPam, sttNdIdx := 0,
      sttNdIdx2 := 0, aPam := ⟨0, 0⟩, calls := [] }
  let s1 := SplitNode s0 s0.rPam
  let s1 := { s1 with sttNdIdx := s1.rPam.node - 1 }
  let s2 := SplitNode s1 s1.rPam
  let s2 := { s2 with sttNdIdx2 := s2.rPam.node }
  let s3 := Move_fnMoveBackward s2
  SetTextFormatColl s3 RES_POOLCOLL_STANDARD

/-- Lines 96-100: the descriptor built for the importer. -/
def aDescriptor (strm : SvStream) (s : DocState) : Descriptor :=
  { InputStream := strm, InsertMode := true, TextInsertModeRange := s.rPam }

/-- Lines 82-95 complete without raising. -/
def Env.ok (env : Env) : Bool :=
  env.createInstance && env.queryXImporter && env.queryXComponent &&
    env.setTargetDocument && env.queryXFilter

/-- The body `SwRTFReader::Read` (lines 53-174).  `m_pStream` is the input
stream (if any), `env` the UNO environment, `filter` the importer, `nodes` and
`rPam` the document and the insert position. -/
def Read (m_pStream : Option SvStream) (env : Env) (filter : Filter)
    (nodes : List SwNode) (rPam : SwPosition) : ReadResult :=
  match m_pStream with
  | none =>
    ⟨.returned .ERR_SWG_READ_ERROR,
      { nodes := nodes, rPam := rPam, xInsertPosition := rPam, sttNdIdx := 0,
        sttNdIdx2 := 0, aPam := ⟨0, 0⟩, calls := [] }⟩
  | some strm =>
    let s := splitTwice nodes rPam
    if !env.createInstance then ⟨.raised, s⟩
    else if !env.queryXImporter then ⟨.raised, s⟩
    else if !env.queryXComponent then ⟨.raised, s⟩
    else if !env.setTargetDocument then ⟨.raised, s⟩
    else if !env.queryXFilter then ⟨.raised, s⟩
    else
      match filter (aDescriptor strm s) s with
      | (.returned _, s5) => ⟨.returned .ERRCODE_NONE, reconcile s5⟩
      | (.unoException, s5) => ⟨.returned .ERR_SWG_READ_ERROR, reconcile s5⟩
      | (.otherException, s5) => ⟨.raised, s5⟩

/-- The way the call at line 104 ends for this run. -/
def filterOutcome (strm : SvStream) (filter : Filter) (nodes : List SwNode)
    (rPam : SwPosition) : FilterOutcome :=
  (filter (aDescriptor strm (splitTwice nodes rPam)) (splitTwice nodes rPam)).1

/-- The document as the call at line 104 leaves it for this run. -/
def afterFilter (strm : SvStream) (filter : Filter) (nodes : List SwNode)
    (rPam : SwPosition) : DocState :=
  (filter (aDescriptor strm (splitTwice nodes rPam)) (splitTwice nodes rPam)).2

/-! ## Concrete documents, environments and importers -/

/-- An environment in which every step of lines 82-95 completes. -/
def envOk : Env :=
  { createInstance := true, queryXImporter := true, queryXComponent := true,
    setTargetDocument := true, queryXFilter := true }

/-- An environment in which the RTF filter service is not registered:
the service creation at line 85 yields null and `UNO_SET_THROW` raises. -/
def envNoService : Env :=
  { envOk with createInstance := false }

/-- A document of one paragraph between its start node and its end node. -/
def singleParagraph (t : SwTextNode) : List SwNode :=
  [.otherNode, .textNode t, .otherNode]

/-- The paragraph "AB" with paragraph style 5. -/
def nodeAB : SwTextNode :=
  { text := ['A', 'B'], coll := 5, attrs := [], hints := [] }

/-- The document of the single paragraph "AB". -/
def docAB : List SwNode :=
  singleParagraph nodeAB

/-- An importer that inserts nothing and returns. -/
def emptyContent : Filter :=
  fun _ s => (.returned true, s)

/-- An importer that places the text `x` into the paragraph of the insert
range (the gap) and then ends with `outcome`. -/
def putText (x : List Char) (outcome : FilterOutcome) : Filter :=
  fun d s =>
    let gap := d.TextInsertModeRange.node
    (outcome, { s with nodes := modifyTextNode s.nodes gap (fun t => { t with text := x }) })

/-- An importer that raises a `uno::Exception` without touching the document. -/
def failUntouched : Filter :=
  fun _ s => (.unoException, s)

/-- A document state as the importer may leave it: the nodes, the two
remembered node indices and the marker of step 1. -/
def stateAfterImport (nodes : List SwNode) (sttNdIdx sttNdIdx2 : Nat)
    (xInsertPosition : SwPosition) : DocState :=
  { nodes := nodes, rPam := ⟨sttNdIdx + 1, 0⟩, xInsertPosition := xInsertPosition,
    sttNdIdx := sttNdIdx, sttNdIdx2 := sttNdIdx2, aPam := xInsertPosition, calls := [] }

/-- The paragraph "A" with paragraph style 5 and one direct formatting item. -/
def nodeA : SwTextNode :=
  { text := ['A'], coll := 5, attrs := [⟨.RES_FMT 1, 7⟩], hints := [] }

/-- An empty paragraph with paragraph style 5 that is a list item. -/
def nodeEmptyListItem : SwTextNode :=
  { text := [], coll := 5, attrs := [⟨.RES_PARATR_LIST_ID, 3⟩], hints := [] }

/-- The imported paragraph "XY" with paragraph style 2, one direct formatting
item and no list identity. -/
def nodeXY : SwTextNode :=
  { text := ['X', 'Y'], coll := 2, attrs := [⟨.RES_FMT 4, 9⟩], hints := [] }

/-- The paragraph "B" behind the insert position. -/
def nodeB : SwTextNode :=
  { text := ['B'], coll := 5, attrs := [], hints := [] }

/-- After the import of "XY" between "A" and "B": the marker stands at the end
of the imported paragraph, at offset 2. -/
def importedXY : DocState :=
  stateAfterImport [.otherNode, .textNode nodeA, .textNode nodeXY, .textNode nodeB, .otherNode]
    1 3 ⟨2, 2⟩

/-- After the import of "XY" behind an empty list item. -/
def importedXYAfterEmpty : DocState :=
  stateAfterImport
    [.otherNode, .textNode nodeEmptyListItem, .textNode nodeXY, .textNode nodeB, .otherNode]
    1 3 ⟨3, 0⟩

/-- Modelled from the spec: marker rebasing when the node at index `d` is
removed from the array (section 3: a marker is never left pointing at a
destroyed node).  A position in the removed node moves to the start of the
node that takes its index, positions in later nodes move one node back. -/
def removePos (d : Nat) (p : SwPosition) : SwPosition :=
  if p.node < d then p
  else if p.node = d then ⟨d, 0⟩
  else ⟨p.node - 1, p.content⟩

/-- An importer that removes the node in front of the gap, the node the first
split left there, and returns.  The cursors and the remembered indices are
rebased as on every removal of a node: the index remembered for the removed
node is left where it stands (`joinIdx`) and designates the gap afterwards. -/
def removeFrontNode : Filter :=
  fun d s =>
    let front := d.TextInsertModeRange.node - 1
    (.returned true,
      { nodes := s.nodes.eraseIdx front,
        rPam := removePos front s.rPam,
        xInsertPosition := removePos front s.xInsertPosition,
        sttNdIdx := joinIdx front s.sttNdIdx,
        sttNdIdx2 := joinIdx front s.sttNdIdx2,
        aPam := removePos front s.aPam,
        calls := s.calls })

/-- Whether a logged call is an assignment to the output marker. -/
def Call.isAssign : Call → Bool
  | .Assign _ => true
  | _ => false

/-! ## Control flow of Read -/

theorem Read_of_ok (strm : SvStream) (env : Env) (filter : Filter)
    (nodes : List SwNode) (rPam : SwPosition) (henv : env.ok = true) :
    Read (some strm) env filter nodes rPam =
      match filterOutcome strm filter nodes rPam with
      | .returned _ => ⟨.returned .ERRCODE_NONE, reconcile (afterFilter strm filter nodes rPam)⟩
      | .unoException =>
        ⟨.returned .ERR_SWG_READ_ERROR, reconcile (afterFilter strm filter nodes rPam)⟩
      | .otherException => ⟨.raised, afterFilter strm filter nodes rPam⟩ := by
  simp only [Env.ok, Bool.and_eq_true] at henv
  obtain ⟨⟨⟨⟨h1, h2⟩, h3⟩, h4⟩, h5⟩ := henv
  simp only [Read, filterOutcome, afterFilter, h1, h2, h3, h4, h5]
  rcases hf : filter (aDescriptor strm (splitTwice nodes rPam)) (splitTwice nodes rPam) with ⟨o, s5⟩
  cases o <;> simp

theorem Read_of_not_ok (strm : SvStream) (env : Env) (filter : Filter)
    (nodes : List SwNode) (rPam : SwPosition) (henv : env.ok = false) :
    Read (some strm) env filter nodes rPam = ⟨.raised, splitTwice nodes rPam⟩ := by
  rcases env with ⟨a, b, c, d, e⟩
  cases a <;> cases b <;> cases c <;> cases d <;> cases e <;>
    simp_all [Env.ok, Read]

/-- C1: once `Read` has called the importer (the stream is there and lines
82-95 completed), and the call returns or raises a `uno::Exception`, `Read`
returns, and the document it leaves is the one the importer left with the
marker resolved and then the join-with-next and the join-with-previous
attempts applied, in this order.  The code returned is the error code exactly
on the exception path; no path from the call to the `return` bypasses the two
steps. -/
theorem Read_runs_both_merges_after_filter (strm : SvStream) (env : Env) (filter : Filter)
    (nodes : List SwNode) (rPam : SwPosition) (henv : env.ok = true)
    (hout : filterOutcome strm filter nodes rPam ≠ .otherException) :
    (Read (some strm) env filter nodes rPam).doc =
        MergeRight (MergeLeft (XTextRangeToSwPaM (afterFilter strm filter nodes rPam))) ∧
      (Read (some strm) env filter nodes rPam).exit =
        .returned (if filterOutcome strm filter nodes rPam = .unoException
          then .ERR_SWG_READ_ERROR else .ERRCODE_NONE) := by
  rw [Read_of_ok strm env filter nodes rPam henv]
  cases h : filterOutcome strm filter nodes rPam with
  | returned b => simp [reconcile]
  | unoException => simp [reconcile]
  | otherException => exact absurd h hout

/-- C1, on the failure path: "AB" split after the A, an importer that puts
"X" into the gap and then raises a `uno::Exception`. -/
theorem Read_runs_both_merges_after_filter_witness :
    envOk.ok = true ∧
      filterOutcome [] (putText ['X'] .unoException) docAB ⟨1, 1⟩ ≠ .otherException ∧
      (Read (some []) envOk (putText ['X'] .unoException) docAB ⟨1, 1⟩).doc =
        MergeRight (MergeLeft (XTextRangeToSwPaM
          (afterFilter [] (putText ['X'] .unoException) docAB ⟨1, 1⟩))) ∧
      (Read (some []) envOk (putText ['X'] .unoException) docAB ⟨1, 1⟩).exit =
        .returned (if filterOutcome [] (putText ['X'] .unoException) docAB ⟨1, 1⟩ = .unoException
          then .ERR_SWG_READ_ERROR else .ERRCODE_NONE) :=
  ⟨by decide, by decide,
    Read_runs_both_merges_after_filter [] envOk (putText ['X'] .unoException) docAB ⟨1, 1⟩
      (by decide) (by decide)⟩

/-- C2: `Read` returns the error code exactly when there is no input stream or
the importer was called and raised a `uno::Exception`; it returns
`ERRCODE_NONE` exactly when the importer was called and returned (whatever
boolean it returned); and the way `Read` is left is the same for any two
documents, insert positions and importers on which the importer ends the same
way, so it does not depend on what the two joins find or do. -/
theorem Read_returns_delegate_outcome (m_pStream : Option SvStream) (env : Env)
    (filter : Filter) (nodes : List SwNode) (rPam : SwPosition) :
    ((Read m_pStream env filter nodes rPam).exit = .returned .ERR_SWG_READ_ERROR ↔
        m_pStream = none ∨ ∃ strm, m_pStream = some strm ∧ env.ok = true ∧
          filterOutcome strm filter nodes rPam = .unoException) ∧
      ((Read m_pStream env filter nodes rPam).exit = .returned .ERRCODE_NONE ↔
        ∃ strm ok, m_pStream = some strm ∧ env.ok = true ∧
          filterOutcome strm filter nodes rPam = .returned ok) ∧
      (∀ (filter2 : Filter) (nodes2 : List SwNode) (rPam2 : SwPosition),
        (∀ strm, m_pStream = some strm →
          (filterOutcome strm filter2 nodes2 rPam2 = .unoException ↔
            filterOutcome strm filter nodes rPam = .unoException) ∧
          (filterOutcome strm filter2 nodes2 rPam2 = .otherException ↔
            filterOutcome strm filter nodes rPam = .otherException)) →
        (Read m_pStream env filter2 nodes2 rPam2).exit =
          (Read m_pStream env filter nodes rPam).exit) := by
  cases m_pStream with
  | none => simp [Read]
  | some strm =>
    cases henv : env.ok with
    | false => simp [Read_of_not_ok strm env _ _ _ henv]
    | true =>
      refine ⟨?_, ?_, ?_⟩
      · rw [Read_of_ok strm env filter nodes rPam henv]
        cases h : filterOutcome strm filter nodes rPam <;> simp [henv, h]
      · rw [Read_of_ok strm env filter nodes rPam henv]
        cases h : filterOutcome strm filter nodes rPam <;> simp [henv, h]
      · intro filter2 nodes2 rPam2 hsame
        obtain ⟨hu, ho⟩ := hsame strm rfl
        rw [Read_of_ok strm env filter nodes rPam henv,
          Read_of_ok strm env filter2 nodes2 rPam2 henv]
        cases h : filterOutcome strm filter nodes rPam <;>
          cases h2 : filterOutcome strm filter2 nodes2 rPam2 <;> simp_all

/-- C8, refuted as stated: the filter service is not registered.  Both splits
of "AB" are performed, the service creation at line 85 raises, and `Read` is
left by that exception with the empty gap paragraph still standing between
the "A" and the "B": the two splits and the style of the gap are all that was
done to the document, no join was attempted. -/
theorem Read_leaves_gap_when_setup_raises :
    (Read (some []) envNoService emptyContent docAB ⟨1, 1⟩).exit = .raised ∧
      (Read (some []) envNoService emptyContent docAB ⟨1, 1⟩).doc.nodes.map nodeText =
        [[], ['A'], [], ['B'], []] ∧
      (GetTextNode (Read (some []) envNoService emptyContent docAB ⟨1, 1⟩).doc.nodes 2).map
        (fun g => g.text) = some [] ∧
      (Read (some []) envNoService emptyContent docAB ⟨1, 1⟩).doc.calls =
        [Call.SplitNode ⟨1, 1⟩, Call.SplitNode ⟨2, 0⟩,
          Call.SetTextFormatColl 2 RES_POOLCOLL_STANDARD] ∧
      (Read (some []) envNoService emptyContent docAB ⟨1, 1⟩).doc ≠
        reconcile (afterFilter [] emptyContent docAB ⟨1, 1⟩) := by
  decide

/-- C8, amended: with the splits performed, `Read` is left by `return` exactly
when every step of lines 82-95 completes and the importer returns or raises a
`uno::Exception`, and then both joins have been applied to what the importer
left.  When one of the steps in between raises, `Read` is left at once with
the document as the two splits made it; when the importer raises something
else than a `uno::Exception`, with the document as the importer left it. -/
theorem Read_reaches_reconciliation_iff (strm : SvStream) (env : Env) (filter : Filter)
    (nodes : List SwNode) (rPam : SwPosition) :
    ((∃ ret, (Read (some strm) env filter nodes rPam).exit = .returned ret) ↔
        env.ok = true ∧ filterOutcome strm filter nodes rPam ≠ .otherException) ∧
      ((∃ ret, (Read (some strm) env filter nodes rPam).exit = .returned ret) →
        (Read (some strm) env filter nodes rPam).doc =
          MergeRight (MergeLeft (XTextRangeToSwPaM (afterFilter strm filter nodes rPam)))) ∧
      (env.ok = false →
        Read (some strm) env filter nodes rPam = ⟨.raised, splitTwice nodes rPam⟩) ∧
      (env.ok = true → filterOutcome strm filter nodes rPam = .otherException →
        Read (some strm) env filter nodes rPam =
          ⟨.raised, afterFilter strm filter nodes rPam⟩) := by
  cases henv : env.ok with
  | false => simp [Read_of_not_ok strm env filter nodes rPam henv]
  | true =>
    rw [Read_of_ok strm env filter nodes rPam henv]
    cases h : filterOutcome strm filter nodes rPam <;> simp [reconcile]

/-! ## Lemmas on the nodes array -/

theorem GetTextNode_eq_some {nodes : List SwNode} {i : Nat} {t : SwTextNode} :
    GetTextNode nodes i = some t ↔ nodes[i]? = some (.textNode t) := by
  unfold GetTextNode
  split
  · next u h => simp [h]
  · next h =>
    constructor
    · intro h'; cases h'
    · intro h'; exact absurd h' (h t)

theorem GetTextNode_lt {nodes : List SwNode} {i : Nat} {t : SwTextNode}
    (h : GetTextNode nodes i = some t) : i < nodes.length := by
  rw [GetTextNode_eq_some] at h
  by_contra hc
  rw [List.getElem?_eq_none (by omega)] at h
  cases h

theorem length_modifyTextNode (nodes : List SwNode) (i : Nat) (f : SwTextNode → SwTextNode) :
    (modifyTextNode nodes i f).length = nodes.length := by
  unfold modifyTextNode
  split <;> simp

theorem GetTextNode_modify_self {nodes : List SwNode} {i : Nat} {t : SwTextNode}
    (f : SwTextNode → SwTextNode) (h : GetTextNode nodes i = some t) :
    GetTextNode (modifyTextNode nodes i f) i = some (f t) := by
  have hlt := GetTextNode_lt h
  rw [GetTextNode_eq_some] at h
  rw [GetTextNode_eq_some]
  simp [modifyTextNode, h, hlt]

theorem GetTextNode_modify_of_ne {nodes : List SwNode} {i j : Nat}
    (f : SwTextNode → SwTextNode) (h : i ≠ j) :
    GetTextNode (modifyTextNode nodes i f) j = GetTextNode nodes j := by
  unfold modifyTextNode
  split
  · simp [GetTextNode, List.getElem?_set_ne h]
  · rfl

theorem GetTextNode_take_cons {nodes rest : List SwNode} {i : Nat} (m : SwTextNode)
    (h : i ≤ nodes.length) :
    GetTextNode (nodes.take i ++ .textNode m :: rest) i = some m := by
  rw [GetTextNode_eq_some, List.getElem?_append_right (by simp [h])]
  simp [Nat.min_eq_left h]

theorem joinNextFrom_ge {l : List SwNode} {j k : Nat} (h : joinNextFrom l j = some k) :
    j ≤ k := by
  induction l generalizing j with
  | nil => simp [joinNextFrom] at h
  | cons a rest ih =>
    cases a with
    | textNode t => simp [joinNextFrom] at h; omega
    | sectionNode => simp only [joinNextFrom] at h; have := ih h; omega
    | otherNode => simp [joinNextFrom] at h

theorem joinNextFrom_self {l : List SwNode} {j : Nat} (h : joinNextFrom l j = some j) :
    ∃ u rest, l = .textNode u :: rest := by
  cases l with
  | nil => simp [joinNextFrom] at h
  | cons a rest =>
    cases a with
    | textNode t => exact ⟨t, rest, rfl⟩
    | sectionNode => simp only [joinNextFrom] at h; have := joinNextFrom_ge h; omega
    | otherNode => simp [joinNextFrom] at h

/-- The node `CanJoinNext` reports right behind a node is a paragraph, so
`pDelNd` at line 134 is never null. -/
theorem CanJoinNext_adjacent {nodes : List SwNode} {i : Nat}
    (h : CanJoinNext nodes i = some (i + 1)) : ∃ u, GetTextNode nodes (i + 1) = some u := by
  obtain ⟨u, rest, hl⟩ := joinNextFrom_self h
  refine ⟨u, ?_⟩
  rw [GetTextNode_eq_some]
  have : (nodes.drop (i + 1))[0]? = some (.textNode u) := by rw [hl]; simp
  simpa using this

/-! ## The join with the next node (lines 115-149) -/

/-- The left merge on a joinable pair, spelled out: the marker is moved off
the next node if it stands there, the formatting step depends on whether the
node in front is empty, and then the node in front joins its next node. -/
theorem MergeLeft_joinable (s : DocState) (T U : SwTextNode) (h0 : s.sttNdIdx ≠ 0)
    (hT : GetTextNode s.nodes s.sttNdIdx = some T)
    (hJ : CanJoinNext s.nodes s.sttNdIdx = some (s.sttNdIdx + 1))
    (hU : GetTextNode s.nodes (s.sttNdIdx + 1) = some U) :
    MergeLeft s =
      JoinNext
        (if T.text.length ≠ 0 then
          FormatToTextAttr
            (if s.aPam.node = s.sttNdIdx + 1 then Assign s ⟨s.sttNdIdx, T.text.length⟩ else s)
            (s.sttNdIdx + 1) s.sttNdIdx
        else if (GetNoCondAttr U .RES_PARATR_LIST_ID).isNone then
          CopyCollFormat
            (ChgFormatColl
              (if s.aPam.node = s.sttNdIdx + 1 then Assign s ⟨s.sttNdIdx, T.text.length⟩ else s)
              s.sttNdIdx U.coll)
            (s.sttNdIdx + 1) s.sttNdIdx
        else
          ChgFormatColl
            (if s.aPam.node = s.sttNdIdx + 1 then Assign s ⟨s.sttNdIdx, T.text.length⟩ else s)
            s.sttNdIdx U.coll)
        s.sttNdIdx := by
  have hU1 : GetTextNode
      (if s.aPam.node = s.sttNdIdx + 1 then Assign s ⟨s.sttNdIdx, T.text.length⟩ else s).nodes
      (s.sttNdIdx + 1) = some U := by
    split <;> simpa [Assign] using hU
  simp only [MergeLeft, h0, hT, hJ, hU1, ne_eq, not_false_eq_true, if_true]

theorem JoinNext_of {s : DocState} {i : Nat} {t u : SwTextNode}
    (h1 : GetTextNode s.nodes i = some t) (h2 : GetTextNode s.nodes (i + 1) = some u) :
    JoinNext s i =
      { nodes := s.nodes.take i ++
          .textNode { text := t.text ++ u.text, coll := u.coll,
                      attrs := if t.text.length = 0 then t.attrs else u.attrs,
                      hints := t.hints ++ u.hints.map (shiftHint t.text.length) } ::
          s.nodes.drop (i + 2),
        rPam := joinNextPos i t.text.length s.rPam,
        xInsertPosition := joinNextPos i t.text.length s.xInsertPosition,
        sttNdIdx := joinIdx (i + 1) s.sttNdIdx,
        sttNdIdx2 := joinIdx (i + 1) s.sttNdIdx2,
        aPam := joinNextPos i t.text.length s.aPam,
        calls := s.calls ++ [.JoinNext i] } := by
  simp [JoinNext, h1, h2]

theorem length_take_cons_drop {nodes : List SwNode} {i : Nat} (x : SwNode)
    (h : i + 1 < nodes.length) :
    (nodes.take i ++ x :: nodes.drop (i + 2)).length + 1 = nodes.length := by
  simp only [List.length_append, List.length_take, List.length_cons, List.length_drop]
  omega

theorem find_overlayAttrs {src dest : List SfxPoolItem} {w : WhichId}
    (h : src.find? (fun a => a.which = w) = none) :
    (overlayAttrs src dest).find? (fun a => a.which = w) =
      dest.find? (fun a => a.which = w) := by
  have hsrc : ∀ a ∈ src, a.which ≠ w := by
    intro a ha
    have := List.find?_eq_none.mp h a ha
    simpa using this
  unfold overlayAttrs
  rw [List.find?_append, h, Option.none_or]
  induction dest with
  | nil => rfl
  | cons d rest ih =>
    by_cases hd : d.which = w
    · have hany : src.any (fun a => decide (a.which = d.which)) = false := by
        rw [List.any_eq_false]
        intro a ha
        have := hsrc a ha
        simp [hd, this]
      simp only [List.filter_cons, hany, Bool.not_false, if_true, List.find?_cons]
      simp [hd]
    · by_cases hk : src.any (fun a => decide (a.which = d.which)) = true
      · simp only [List.filter_cons, hk, Bool.not_true, Bool.false_eq_true, if_false]
        rw [ih]; simp [List.find?_cons, hd]
      · simp only [Bool.not_eq_true] at hk
        simp only [List.filter_cons, hk, Bool.not_false, if_true, List.find?_cons]
        simp [hd, ih]

/-- The re-check of lines 120-123 failing leaves the state as it is. -/
theorem MergeLeft_of_recheck_fails (s : DocState)
    (h : GetTextNode s.nodes s.sttNdIdx = none ∨ CanJoinNext s.nodes s.sttNdIdx = none ∨
      ∃ j, CanJoinNext s.nodes s.sttNdIdx = some j ∧ s.sttNdIdx + 1 ≠ j) :
    MergeLeft s = s := by
  unfold MergeLeft
  rcases h with h | h | ⟨j, h, hj⟩
  · simp [h]
  · simp only [h]; split <;> [split; rfl] <;> rfl
  · simp only [h, hj, if_false]; split <;> [split; rfl] <;> rfl

theorem Assign_nodes_if (s : DocState) (c : Prop) [Decidable c] (p : SwPosition) :
    (if c then Assign s p else s).nodes = s.nodes := by
  split <;> rfl

theorem Assign_calls_if (s : DocState) (c : Prop) [Decidable c] (p : SwPosition) :
    (if c then Assign s p else s).calls = s.calls ++ (if c then [Call.Assign p] else []) := by
  split <;> simp [Assign]

theorem Assign_aPam_if (s : DocState) (c : Prop) [Decidable c] (p : SwPosition) :
    (if c then Assign s p else s).aPam = if c then p else s.aPam := by
  split <;> rfl

/-- What a join with the next node leaves: the merged paragraph at the index
of the receiver, one node less, one call logged, the marker rebased. -/
theorem JoinNext_spec {s : DocState} {i : Nat} {t u : SwTextNode}
    (h1 : GetTextNode s.nodes i = some t) (h2 : GetTextNode s.nodes (i + 1) = some u) :
    GetTextNode (JoinNext s i).nodes i = some
        { text := t.text ++ u.text, coll := u.coll,
          attrs := if t.text.length = 0 then t.attrs else u.attrs,
          hints := t.hints ++ u.hints.map (shiftHint t.text.length) } ∧
      (JoinNext s i).calls = s.calls ++ [.JoinNext i] ∧
      (JoinNext s i).aPam = joinNextPos i t.text.length s.aPam ∧
      (JoinNext s i).nodes.length + 1 = s.nodes.length := by
  have hlt := GetTextNode_lt h2
  rw [JoinNext_of h1 h2]
  exact ⟨GetTextNode_take_cons _ (by omega), rfl, rfl, length_take_cons_drop _ hlt⟩

theorem ChgFormatColl_self {s : DocState} {i : Nat} {t : SwTextNode} (c : SwTextFormatColl)
    (h : GetTextNode s.nodes i = some t) :
    GetTextNode (ChgFormatColl s i c).nodes i = some { t with coll := c } :=
  GetTextNode_modify_self _ h

theorem ChgFormatColl_of_ne {s : DocState} {i j : Nat} (c : SwTextFormatColl) (h : i ≠ j) :
    GetTextNode (ChgFormatColl s i c).nodes j = GetTextNode s.nodes j :=
  GetTextNode_modify_of_ne _ h

theorem CopyCollFormat_of {s : DocState} {src dest : Nat} {u : SwTextNode}
    (h : GetTextNode s.nodes src = some u) :
    CopyCollFormat s src dest =
      { s with
        nodes := modifyTextNode s.nodes dest
          (fun t => { t with coll := u.coll, attrs := overlayAttrs u.attrs t.attrs }),
        calls := s.calls ++ [.CopyCollFormat src dest] } := by
  simp only [CopyCollFormat, h]

theorem FormatToTextAttr_recv {s : DocState} {recv arg : Nat} {u : SwTextNode}
    (hne : arg ≠ recv) (h : GetTextNode s.nodes recv = some u) :
    GetTextNode (FormatToTextAttr s recv arg).nodes recv = some u := by
  show GetTextNode (modifyTextNode s.nodes arg toTextAttr) recv = _
  rw [GetTextNode_modify_of_ne _ hne]; exact h

theorem FormatToTextAttr_arg {s : DocState} {recv arg : Nat} {t : SwTextNode}
    (h : GetTextNode s.nodes arg = some t) :
    GetTextNode (FormatToTextAttr s recv arg).nodes arg = some (toTextAttr t) :=
  GetTextNode_modify_self _ h

theorem FormatToTextAttr_length (s : DocState) (recv arg : Nat) :
    (FormatToTextAttr s recv arg).nodes.length = s.nodes.length := by
  simp [FormatToTextAttr, length_modifyTextNode]

theorem ChgFormatColl_length (s : DocState) (i : Nat) (c : SwTextFormatColl) :
    (ChgFormatColl s i c).nodes.length = s.nodes.length := by
  simp [ChgFormatColl, length_modifyTextNode]

/-- C7: on a joinable pair whose node in front T is empty, T takes the
paragraph style of the next node U; the direct paragraph formatting of U is
copied onto T exactly when U has no list identity of its own, and not at all
when it has one, so the list identity of T after the step is the one T had;
and the join is performed in both cases: one node less, the remaining node at
the index of T holds the text and hints of U. -/
theorem MergeLeft_empty_adopts_style (s : DocState) (T U : SwTextNode)
    (h0 : s.sttNdIdx ≠ 0)
    (hT : GetTextNode s.nodes s.sttNdIdx = some T)
    (hJ : CanJoinNext s.nodes s.sttNdIdx = some (s.sttNdIdx + 1))
    (hU : GetTextNode s.nodes (s.sttNdIdx + 1) = some U)
    (hE : T.text = []) :
    GetTextNode (MergeLeft s).nodes s.sttNdIdx = some
        { text := U.text, coll := U.coll,
          attrs := if (GetNoCondAttr U .RES_PARATR_LIST_ID).isNone
            then overlayAttrs U.attrs T.attrs else T.attrs,
          hints := T.hints ++ U.hints.map (shiftHint 0) } ∧
      (MergeLeft s).calls = s.calls ++
        (if s.aPam.node = s.sttNdIdx + 1 then [Call.Assign ⟨s.sttNdIdx, 0⟩] else []) ++
        [Call.ChgFormatColl s.sttNdIdx U.coll] ++
        (if (GetNoCondAttr U .RES_PARATR_LIST_ID).isNone
          then [Call.CopyCollFormat (s.sttNdIdx + 1) s.sttNdIdx] else []) ++
        [Call.JoinNext s.sttNdIdx] ∧
      GetNoCondAttr
          { text := U.text, coll := U.coll,
            attrs := if (GetNoCondAttr U .RES_PARATR_LIST_ID).isNone
              then overlayAttrs U.attrs T.attrs else T.attrs,
            hints := T.hints ++ U.hints.map (shiftHint 0) } .RES_PARATR_LIST_ID =
        GetNoCondAttr T .RES_PARATR_LIST_ID ∧
      (MergeLeft s).nodes.length + 1 = s.nodes.length := by
  have hne : s.sttNdIdx ≠ s.sttNdIdx + 1 := by omega
  have hlen : T.text.length = 0 := by simp [hE]
  rw [MergeLeft_joinable s T U h0 hT hJ hU]
  simp only [hlen, ne_eq, not_true_eq_false, if_false]
  have hn1 := Assign_nodes_if s (s.aPam.node = s.sttNdIdx + 1) ⟨s.sttNdIdx, 0⟩
  have hc1 := Assign_calls_if s (s.aPam.node = s.sttNdIdx + 1) ⟨s.sttNdIdx, 0⟩
  generalize (if s.aPam.node = s.sttNdIdx + 1 then Assign s ⟨s.sttNdIdx, 0⟩ else s) = s1
    at hn1 hc1 ⊢
  have hT1 : GetTextNode s1.nodes s.sttNdIdx = some T := by rw [hn1]; exact hT
  have hU1 : GetTextNode s1.nodes (s.sttNdIdx + 1) = some U := by rw [hn1]; exact hU
  have hT3 := ChgFormatColl_self U.coll hT1
  have hU3 : GetTextNode (ChgFormatColl s1 s.sttNdIdx U.coll).nodes (s.sttNdIdx + 1) = some U := by
    rw [ChgFormatColl_of_ne _ hne]; exact hU1
  have hl3 := ChgFormatColl_length s1 s.sttNdIdx U.coll
  by_cases hL : (GetNoCondAttr U .RES_PARATR_LIST_ID).isNone = true
  · simp only [hL, if_true]
    rw [CopyCollFormat_of hU3]
    have hT2 := GetTextNode_modify_self
      (fun t => { t with coll := U.coll, attrs := overlayAttrs U.attrs t.attrs }) hT3
    have hU2 : GetTextNode (modifyTextNode (ChgFormatColl s1 s.sttNdIdx U.coll).nodes s.sttNdIdx
        (fun t => { t with coll := U.coll, attrs := overlayAttrs U.attrs t.attrs }))
        (s.sttNdIdx + 1) = some U := by
      rw [GetTextNode_modify_of_ne _ hne]; exact hU3
    obtain ⟨j1, j2, -, j4⟩ := JoinNext_spec
      (s := { (ChgFormatColl s1 s.sttNdIdx U.coll) with
        nodes := modifyTextNode (ChgFormatColl s1 s.sttNdIdx U.coll).nodes s.sttNdIdx
          (fun t => { t with coll := U.coll, attrs := overlayAttrs U.attrs t.attrs }),
        calls := (ChgFormatColl s1 s.sttNdIdx U.coll).calls ++
          [.CopyCollFormat (s.sttNdIdx + 1) s.sttNdIdx] }) hT2 hU2
    refine ⟨?_, ?_, ?_, ?_⟩
    · rw [j1]; simp [hE]
    · rw [j2]; simp [ChgFormatColl, hc1]
    · simp only [GetNoCondAttr]
      exact find_overlayAttrs (by simpa [GetNoCondAttr] using hL)
    · rw [j4]; simp only [length_modifyTextNode, hl3, hn1]
  · simp only [hL, if_false, Bool.false_eq_true]
    obtain ⟨j1, j2, -, j4⟩ := JoinNext_spec hT3 hU3
    refine ⟨?_, ?_, rfl, ?_⟩
    · rw [j1]; simp [hE]
    · rw [j2]; simp [ChgFormatColl, hc1]
    · rw [j4, hl3, hn1]

/-- C7, at the import of "XY" behind an empty list item: the list item takes
style 2 and the formatting item of "XY", and keeps its own list identity. -/
theorem MergeLeft_empty_adopts_style_witness :
    importedXYAfterEmpty.sttNdIdx ≠ 0 ∧
      GetTextNode importedXYAfterEmpty.nodes importedXYAfterEmpty.sttNdIdx =
        some nodeEmptyListItem ∧
      CanJoinNext importedXYAfterEmpty.nodes importedXYAfterEmpty.sttNdIdx =
        some (importedXYAfterEmpty.sttNdIdx + 1) ∧
      GetTextNode importedXYAfterEmpty.nodes (importedXYAfterEmpty.sttNdIdx + 1) =
        some nodeXY ∧
      nodeEmptyListItem.text = [] ∧
      GetTextNode (MergeLeft importedXYAfterEmpty).nodes 1 = some
        { text := ['X', 'Y'], coll := 2,
          attrs := [⟨.RES_FMT 4, 9⟩, ⟨.RES_PARATR_LIST_ID, 3⟩], hints := [] } ∧
      (MergeLeft importedXYAfterEmpty).calls =
        [Call.ChgFormatColl 1 2, Call.CopyCollFormat 2 1, Call.JoinNext 1] ∧
      (MergeLeft importedXYAfterEmpty).nodes.length + 1 = importedXYAfterEmpty.nodes.length :=
  ⟨by decide, by decide, by decide, by decide, by decide,
    (MergeLeft_empty_adopts_style importedXYAfterEmpty nodeEmptyListItem nodeXY
      (by decide) (by decide) (by decide) (by decide) (by decide)).1.trans (by decide),
    (MergeLeft_empty_adopts_style importedXYAfterEmpty nodeEmptyListItem nodeXY
      (by decide) (by decide) (by decide) (by decide) (by decide)).2.1.trans (by decide),
    (MergeLeft_empty_adopts_style importedXYAfterEmpty nodeEmptyListItem nodeXY
      (by decide) (by decide) (by decide) (by decide) (by decide)).2.2.2⟩

/-- C9: on a joinable pair whose node in front T is not empty, it is the
paragraph-level formatting of T that becomes inline hints, over the original
span of T (`FormatToTextAttr` is called with T as its argument and no
paragraph style is assigned); then the join is made: the content of T goes
into the next node U, in front of the content of U, and the one paragraph that
remains carries the paragraph style of U, whatever the style of T was. -/
theorem MergeLeft_nonempty_converts_and_joins (s : DocState) (T U : SwTextNode)
    (h0 : s.sttNdIdx ≠ 0)
    (hT : GetTextNode s.nodes s.sttNdIdx = some T)
    (hJ : CanJoinNext s.nodes s.sttNdIdx = some (s.sttNdIdx + 1))
    (hU : GetTextNode s.nodes (s.sttNdIdx + 1) = some U)
    (hN : T.text ≠ []) :
    GetTextNode (MergeLeft s).nodes s.sttNdIdx = some
        { text := T.text ++ U.text, coll := U.coll, attrs := U.attrs,
          hints := (T.hints ++
              (T.attrs.filter (fun a => a.which ≠ .RES_PARATR_LIST_ID)).map
                (fun a => ⟨0, T.text.length, a⟩)) ++
            U.hints.map (shiftHint T.text.length) } ∧
      (∀ a ∈ T.attrs, a.which ≠ .RES_PARATR_LIST_ID →
        (⟨0, T.text.length, a⟩ : SwTextAttr) ∈
          (T.hints ++
              (T.attrs.filter (fun a => a.which ≠ .RES_PARATR_LIST_ID)).map
                (fun a => ⟨0, T.text.length, a⟩)) ++
            U.hints.map (shiftHint T.text.length)) ∧
      (MergeLeft s).calls = s.calls ++
        (if s.aPam.node = s.sttNdIdx + 1
          then [Call.Assign ⟨s.sttNdIdx, T.text.length⟩] else []) ++
        [Call.FormatToTextAttr (s.sttNdIdx + 1) s.sttNdIdx, Call.JoinNext s.sttNdIdx] ∧
      (MergeLeft s).nodes.length + 1 = s.nodes.length := by
  have hne : s.sttNdIdx ≠ s.sttNdIdx + 1 := by omega
  have hlen : T.text.length ≠ 0 := by
    intro h; exact hN (List.length_eq_zero.mp h)
  rw [MergeLeft_joinable s T U h0 hT hJ hU]
  simp only [hlen, ne_eq, not_false_eq_true, if_true]
  have hn1 := Assign_nodes_if s (s.aPam.node = s.sttNdIdx + 1) ⟨s.sttNdIdx, T.text.length⟩
  have hc1 := Assign_calls_if s (s.aPam.node = s.sttNdIdx + 1) ⟨s.sttNdIdx, T.text.length⟩
  generalize (if s.aPam.node = s.sttNdIdx + 1 then Assign s ⟨s.sttNdIdx, T.text.length⟩
    else s) = s1 at hn1 hc1 ⊢
  have hT1 : GetTextNode s1.nodes s.sttNdIdx = some T := by rw [hn1]; exact hT
  have hU1 : GetTextNode s1.nodes (s.sttNdIdx + 1) = some U := by rw [hn1]; exact hU
  have hT2 := @FormatToTextAttr_arg s1 (s.sttNdIdx + 1) s.sttNdIdx T hT1
  have hU2 := @FormatToTextAttr_recv s1 (s.sttNdIdx + 1) s.sttNdIdx U hne hU1
  obtain ⟨j1, j2, -, j4⟩ := JoinNext_spec hT2 hU2
  refine ⟨?_, ?_, ?_, ?_⟩
  · rw [j1]; simp [toTextAttr, hlen]
  · intro a ha hw
    simp only [List.mem_append, List.mem_map, List.mem_filter]
    exact Or.inl (Or.inr ⟨a, ⟨ha, by simpa using hw⟩, rfl⟩)
  · rw [j2]; simp [FormatToTextAttr, hc1]
  · rw [j4, FormatToTextAttr_length, hn1]

/-- C9, at "A" (style 5, one formatting item) in front of the imported "XY"
(style 2): the paragraph "AXY" remains with style 2, and the formatting item
of "A" is an inline hint over the first character. -/
theorem MergeLeft_nonempty_converts_and_joins_witness :
    importedXY.sttNdIdx ≠ 0 ∧
      GetTextNode importedXY.nodes importedXY.sttNdIdx = some nodeA ∧
      CanJoinNext importedXY.nodes importedXY.sttNdIdx = some (importedXY.sttNdIdx + 1) ∧
      GetTextNode importedXY.nodes (importedXY.sttNdIdx + 1) = some nodeXY ∧
      nodeA.text ≠ [] ∧
      GetTextNode (MergeLeft importedXY).nodes 1 = some
        { text := ['A', 'X', 'Y'], coll := 2, attrs := [⟨.RES_FMT 4, 9⟩],
          hints := [⟨0, 1, ⟨.RES_FMT 1, 7⟩⟩] } ∧
      (MergeLeft importedXY).calls =
        [Call.Assign ⟨1, 1⟩, Call.FormatToTextAttr 2 1, Call.JoinNext 1] ∧
      (MergeLeft importedXY).nodes.length + 1 = importedXY.nodes.length :=
  ⟨by decide, by decide, by decide, by decide, by decide,
    (MergeLeft_nonempty_converts_and_joins importedXY nodeA nodeXY
      (by decide) (by decide) (by decide) (by decide) (by decide)).1.trans (by decide),
    (MergeLeft_nonempty_converts_and_joins importedXY nodeA nodeXY
      (by decide) (by decide) (by decide) (by decide) (by decide)).2.2.1.trans (by decide),
    (MergeLeft_nonempty_converts_and_joins importedXY nodeA nodeXY
      (by decide) (by decide) (by decide) (by decide) (by decide)).2.2.2⟩

/-- The formatting step of the left merge (lines 135-146) keeps every text,
the number of nodes and the marker, and assigns no position. -/
theorem formatStep_keeps (s1 : DocState) (i : Nat) (T U : SwTextNode)
    (hT1 : GetTextNode s1.nodes i = some T) (hU1 : GetTextNode s1.nodes (i + 1) = some U)
    (s2 : DocState)
    (hs2 : s2 =
      if T.text.length ≠ 0 then FormatToTextAttr s1 (i + 1) i
      else if (GetNoCondAttr U .RES_PARATR_LIST_ID).isNone then
        CopyCollFormat (ChgFormatColl s1 i U.coll) (i + 1) i
      else ChgFormatColl s1 i U.coll) :
    ∃ T2 U2 l,
      GetTextNode s2.nodes i = some T2 ∧ GetTextNode s2.nodes (i + 1) = some U2 ∧
        T2.text = T.text ∧ U2.text = U.text ∧
        s2.calls = s1.calls ++ l ∧ l.filter Call.isAssign = [] ∧
        s2.aPam = s1.aPam ∧ s2.nodes.length = s1.nodes.length := by
  have hne : i ≠ i + 1 := by omega
  subst hs2
  by_cases hlen : T.text.length ≠ 0
  · simp only [hlen, ne_eq, not_false_eq_true, if_true]
    exact ⟨_, _, [.FormatToTextAttr (i + 1) i], FormatToTextAttr_arg hT1,
      FormatToTextAttr_recv hne hU1, rfl, rfl, rfl, rfl, rfl,
      FormatToTextAttr_length _ _ _⟩
  · simp only [hlen, if_false]
    have hT3 := ChgFormatColl_self U.coll hT1
    have hU3 : GetTextNode (ChgFormatColl s1 i U.coll).nodes (i + 1) = some U := by
      rw [ChgFormatColl_of_ne _ hne]; exact hU1
    by_cases hL : (GetNoCondAttr U .RES_PARATR_LIST_ID).isNone = true
    · simp only [hL, if_true]
      rw [CopyCollFormat_of hU3]
      refine ⟨_, _, [.ChgFormatColl i U.coll, .CopyCollFormat (i + 1) i],
        GetTextNode_modify_self _ hT3, ?_, rfl, rfl, ?_, rfl, rfl, ?_⟩
      · show GetTextNode (modifyTextNode _ i _) (i + 1) = some U
        rw [GetTextNode_modify_of_ne _ hne]; exact hU3
      · simp [ChgFormatColl]
      · show (modifyTextNode _ i _).length = _
        rw [length_modifyTextNode, ChgFormatColl_length]
    · simp only [hL, if_false, Bool.false_eq_true]
      exact ⟨_, _, [.ChgFormatColl i U.coll], hT3, hU3, rfl, rfl, rfl, rfl, rfl,
        ChgFormatColl_length _ _ _⟩

/-- On a joinable pair the left merge ends with the join: its last call is
`JoinNext` on the node in front, and the array has one node less. -/
theorem MergeLeft_joinable_joins (s : DocState) (T U : SwTextNode) (h0 : s.sttNdIdx ≠ 0)
    (hT : GetTextNode s.nodes s.sttNdIdx = some T)
    (hJ : CanJoinNext s.nodes s.sttNdIdx = some (s.sttNdIdx + 1))
    (hU : GetTextNode s.nodes (s.sttNdIdx + 1) = some U) :
    (∃ l, (MergeLeft s).calls = s.calls ++ l ++ [.JoinNext s.sttNdIdx]) ∧
      (MergeLeft s).nodes.length + 1 = s.nodes.length := by
  rw [MergeLeft_joinable s T U h0 hT hJ hU]
  have hn1 := Assign_nodes_if s (s.aPam.node = s.sttNdIdx + 1) ⟨s.sttNdIdx, T.text.length⟩
  have hc1 := Assign_calls_if s (s.aPam.node = s.sttNdIdx + 1) ⟨s.sttNdIdx, T.text.length⟩
  generalize (if s.aPam.node = s.sttNdIdx + 1 then Assign s ⟨s.sttNdIdx, T.text.length⟩
    else s) = s1 at hn1 hc1 ⊢
  have hT1 : GetTextNode s1.nodes s.sttNdIdx = some T := by rw [hn1]; exact hT
  have hU1 : GetTextNode s1.nodes (s.sttNdIdx + 1) = some U := by rw [hn1]; exact hU
  obtain ⟨T2, U2, l, hT2, hU2, -, -, hc2, -, -, hl2⟩ :=
    formatStep_keeps s1 s.sttNdIdx T U hT1 hU1 _ rfl
  obtain ⟨-, j2, -, j4⟩ := JoinNext_spec hT2 hU2
  refine ⟨⟨(if s.aPam.node = s.sttNdIdx + 1
      then [Call.Assign ⟨s.sttNdIdx, T.text.length⟩] else []) ++ l, ?_⟩, ?_⟩
  · rw [j2, hc2, hc1]; simp only [List.append_assoc]
  · rw [j4, hl2, hn1]

/-- C6, refuted as stated: the importer removes the node in front of the gap,
the "A" of "AB".  The index remembered for it then designates the gap
paragraph, which is a paragraph with a joinable paragraph right behind it, so
the re-check of lines 120-123 passes and the left merge joins the gap with the
"B": the state changes, `JoinNext` is called, and one node less remains. -/
theorem MergeLeft_joins_after_front_node_removed :
    (splitTwice docAB ⟨1, 1⟩).nodes.map nodeText = [[], ['A'], [], ['B'], []] ∧
      (afterFilter [] removeFrontNode docAB ⟨1, 1⟩).nodes.map nodeText =
        [[], [], ['B'], []] ∧
      (afterFilter [] removeFrontNode docAB ⟨1, 1⟩).sttNdIdx = 1 ∧
      MergeLeft (XTextRangeToSwPaM (afterFilter [] removeFrontNode docAB ⟨1, 1⟩)) ≠
        XTextRangeToSwPaM (afterFilter [] removeFrontNode docAB ⟨1, 1⟩) ∧
      Call.JoinNext 1 ∈
        (MergeLeft (XTextRangeToSwPaM (afterFilter [] removeFrontNode docAB ⟨1, 1⟩))).calls ∧
      (MergeLeft (XTextRangeToSwPaM
        (afterFilter [] removeFrontNode docAB ⟨1, 1⟩))).nodes.map nodeText = [[], ['B'], []] ∧
      Call.JoinNext 1 ∈ (Read (some []) envOk removeFrontNode docAB ⟨1, 1⟩).doc.calls := by
  decide

/-- C6, amended: the left merge re-checks joinability on what the remembered
index designates at merge time, and does nothing exactly when that check
fails.  If the index is 0, or the node at the index is no paragraph (or no
node at all), or it cannot join a next node, or the node it can join is not
the one at index + 1, the state after the step is the state before it: no
text, style, marker or node index changes, no call is made into the document
core, and the step completes.  In every other case the step ends with
`JoinNext` on the node at the index and one node less remains, whether or not
that node is the one the first split left there. -/
theorem MergeLeft_noop_iff_recheck_fails (s : DocState) :
    (MergeLeft s = s ↔
        (s.sttNdIdx = 0 ∨ GetTextNode s.nodes s.sttNdIdx = none ∨
          CanJoinNext s.nodes s.sttNdIdx = none ∨
          ∃ j, CanJoinNext s.nodes s.sttNdIdx = some j ∧ s.sttNdIdx + 1 ≠ j)) ∧
      (MergeLeft s ≠ s →
        (∃ l, (MergeLeft s).calls = s.calls ++ l ++ [.JoinNext s.sttNdIdx]) ∧
          (MergeLeft s).nodes.length + 1 = s.nodes.length) := by
  by_cases hfail : s.sttNdIdx = 0 ∨ GetTextNode s.nodes s.sttNdIdx = none ∨
      CanJoinNext s.nodes s.sttNdIdx = none ∨
      ∃ j, CanJoinNext s.nodes s.sttNdIdx = some j ∧ s.sttNdIdx + 1 ≠ j
  · have hnoop : MergeLeft s = s := by
      rcases hfail with h | h
      · simp [MergeLeft, h]
      · exact MergeLeft_of_recheck_fails s h
    exact ⟨⟨fun _ => hfail, fun _ => hnoop⟩, fun h => absurd hnoop h⟩
  · have h0 : s.sttNdIdx ≠ 0 := fun h => hfail (Or.inl h)
    obtain ⟨T, hT⟩ : ∃ T, GetTextNode s.nodes s.sttNdIdx = some T := by
      cases h : GetTextNode s.nodes s.sttNdIdx with
      | none => exact absurd (Or.inr (Or.inl h)) hfail
      | some T => exact ⟨T, rfl⟩
    have hJ : CanJoinNext s.nodes s.sttNdIdx = some (s.sttNdIdx + 1) := by
      cases h : CanJoinNext s.nodes s.sttNdIdx with
      | none => exact absurd (Or.inr (Or.inr (Or.inl h))) hfail
      | some j =>
        by_cases hj : s.sttNdIdx + 1 = j
        · rw [hj]
        · exact absurd (Or.inr (Or.inr (Or.inr ⟨j, h, hj⟩))) hfail
    obtain ⟨U, hU⟩ := CanJoinNext_adjacent hJ
    have hjoin := MergeLeft_joinable_joins s T U h0 hT hJ hU
    have hne : MergeLeft s ≠ s := by
      intro h
      have hlen := hjoin.2
      rw [h] at hlen
      omega
    exact ⟨⟨fun h => absurd h hne, fun h => absurd h hfail⟩, fun _ => hjoin⟩

/-- The right merge assigns no position: what it logs holds no `Assign`, and
the marker is at most rebased by the join with the previous node. -/
theorem MergeRight_assigns_nothing (s : DocState) :
    (∃ l, (MergeRight s).calls = s.calls ++ l ∧ l.filter Call.isAssign = []) ∧
      ((MergeRight s).aPam = s.aPam ∨
        ∃ len, (MergeRight s).aPam = joinPrevPos s.sttNdIdx2 len s.aPam) := by
  have hJ : ∀ (s2 : DocState) (l0 : List Call), s2.calls = s.calls ++ l0 →
      l0.filter Call.isAssign = [] → s2.aPam = s.aPam →
      (∃ l, (JoinPrev s2 s.sttNdIdx2).calls = s.calls ++ l ∧ l.filter Call.isAssign = []) ∧
      ((JoinPrev s2 s.sttNdIdx2).aPam = s.aPam ∨
        ∃ len, (JoinPrev s2 s.sttNdIdx2).aPam = joinPrevPos s.sttNdIdx2 len s.aPam) := by
    intro s2 l0 hc hl ha
    unfold JoinPrev
    split
    · split
      · next v t _ _ =>
        exact ⟨⟨l0 ++ [.JoinPrev s.sttNdIdx2], by simp [hc], by simp [hl, Call.isAssign]⟩,
          Or.inr ⟨v.text.length, by simp [ha]⟩⟩
      · exact ⟨⟨l0, hc, hl⟩, Or.inl ha⟩
    · exact ⟨⟨l0, hc, hl⟩, Or.inl ha⟩
  have hS : (∃ l, s.calls = s.calls ++ l ∧ l.filter Call.isAssign = []) ∧
      (s.aPam = s.aPam ∨ ∃ len, s.aPam = joinPrevPos s.sttNdIdx2 len s.aPam) :=
    ⟨⟨[], by simp, rfl⟩, Or.inl rfl⟩
  unfold MergeRight
  split
  · split
    · split
      · split
        · split
          · split
            · exact hJ _ [.FormatToTextAttr _ _] rfl rfl rfl
            · exact hJ _ [.ChgFormatColl _ _] rfl rfl rfl
          · exact hS
        · exact hS
      · exact hS
    · exact hS
  · exact hS

/-- C10: on a joinable pair (T, U) the left merge assigns the output marker
the position (T, length of the text of T) exactly when the marker stands in
U, at whatever offset; a marker in any other node is not assigned: it keeps
its node and offset (the index of a node behind U is one less once U is
deleted).  The right merge never assigns the marker: it logs no assignment,
and the marker is at most rebased by the join. -/
theorem MergeLeft_moves_marker_off_next_node (s : DocState) (T U : SwTextNode)
    (h0 : s.sttNdIdx ≠ 0)
    (hT : GetTextNode s.nodes s.sttNdIdx = some T)
    (hJ : CanJoinNext s.nodes s.sttNdIdx = some (s.sttNdIdx + 1))
    (hU : GetTextNode s.nodes (s.sttNdIdx + 1) = some U) :
    (MergeLeft s).aPam =
        (if s.aPam.node = s.sttNdIdx + 1 then ⟨s.sttNdIdx, T.text.length⟩
          else if s.aPam.node ≤ s.sttNdIdx then s.aPam
          else ⟨s.aPam.node - 1, s.aPam.content⟩) ∧
      (∃ l, (MergeLeft s).calls = s.calls ++ l ∧
        l.filter Call.isAssign =
          if s.aPam.node = s.sttNdIdx + 1
            then [Call.Assign ⟨s.sttNdIdx, T.text.length⟩] else []) ∧
      ∀ r : DocState,
        (∃ l, (MergeRight r).calls = r.calls ++ l ∧ l.filter Call.isAssign = []) ∧
        ((MergeRight r).aPam = r.aPam ∨
          ∃ len, (MergeRight r).aPam = joinPrevPos r.sttNdIdx2 len r.aPam) := by
  refine ⟨?_, ?_, MergeRight_assigns_nothing⟩
  all_goals
    rw [MergeLeft_joinable s T U h0 hT hJ hU]
    have hn1 := Assign_nodes_if s (s.aPam.node = s.sttNdIdx + 1) ⟨s.sttNdIdx, T.text.length⟩
    have hc1 := Assign_calls_if s (s.aPam.node = s.sttNdIdx + 1) ⟨s.sttNdIdx, T.text.length⟩
    have ha1 := Assign_aPam_if s (s.aPam.node = s.sttNdIdx + 1) ⟨s.sttNdIdx, T.text.length⟩
    generalize (if s.aPam.node = s.sttNdIdx + 1 then Assign s ⟨s.sttNdIdx, T.text.length⟩
      else s) = s1 at hn1 hc1 ha1 ⊢
    have hT1 : GetTextNode s1.nodes s.sttNdIdx = some T := by rw [hn1]; exact hT
    have hU1 : GetTextNode s1.nodes (s.sttNdIdx + 1) = some U := by rw [hn1]; exact hU
    obtain ⟨T2, U2, l, hT2, hU2, htx, -, hc2, hl2, ha2, -⟩ :=
      formatStep_keeps s1 s.sttNdIdx T U hT1 hU1 _ rfl
    obtain ⟨-, j2, j3, -⟩ := JoinNext_spec hT2 hU2
  · rw [j3, ha2, ha1, htx]
    by_cases hm : s.aPam.node = s.sttNdIdx + 1
    · simp [hm, joinNextPos]
    · simp only [hm, if_false, joinNextPos]
  · refine ⟨_, by rw [j2, hc2, hc1, List.append_assoc, List.append_assoc], ?_⟩
    by_cases hm : s.aPam.node = s.sttNdIdx + 1
    · simp [hm, hl2, Call.isAssign]
    · simp [hm, hl2, Call.isAssign]

/-- C10, at the import of "XY" between "A" and "B" with the marker at offset
2 of "XY": the marker is assigned the end of "A". -/
theorem MergeLeft_moves_marker_off_next_node_witness :
    importedXY.sttNdIdx ≠ 0 ∧
      GetTextNode importedXY.nodes importedXY.sttNdIdx = some nodeA ∧
      CanJoinNext importedXY.nodes importedXY.sttNdIdx = some (importedXY.sttNdIdx + 1) ∧
      GetTextNode importedXY.nodes (importedXY.sttNdIdx + 1) = some nodeXY ∧
      importedXY.aPam = ⟨2, 2⟩ ∧
      (MergeLeft importedXY).aPam = ⟨1, 1⟩ :=
  ⟨by decide, by decide, by decide, by decide, by decide,
    (MergeLeft_moves_marker_off_next_node importedXY nodeA nodeXY
      (by decide) (by decide) (by decide) (by decide)).1.trans (by decide)⟩

/-! ## The nodes array around the split paragraph -/

theorem getElem_mid0 (pre rest : List SwNode) (a : SwNode) :
    (pre ++ a :: rest)[pre.length]? = some a := by
  rw [List.getElem?_append_right (Nat.le_refl _)]
  simp

theorem getElem_mid1 (pre rest : List SwNode) (a b : SwNode) :
    (pre ++ a :: b :: rest)[pre.length + 1]? = some b := by
  rw [List.getElem?_append_right (by omega)]
  simp

theorem take_mid0 (pre rest : List SwNode) : (pre ++ rest).take pre.length = pre := by
  simp

theorem take_mid1 (pre rest : List SwNode) (a : SwNode) :
    (pre ++ a :: rest).take (pre.length + 1) = pre ++ [a] := by
  simp [List.take_append_eq_append_take]

theorem drop_mid1 (pre rest : List SwNode) (a : SwNode) :
    (pre ++ a :: rest).drop (pre.length + 1) = rest := by
  simp [List.drop_append_eq_append_drop]

theorem drop_mid2 (pre rest : List SwNode) (a b : SwNode) :
    (pre ++ a :: b :: rest).drop (pre.length + 2) = rest := by
  simp [List.drop_append_eq_append_drop]

theorem GetTextNode_mid0 (pre rest : List SwNode) (t : SwTextNode) :
    GetTextNode (pre ++ .textNode t :: rest) pre.length = some t := by
  rw [GetTextNode_eq_some]; exact getElem_mid0 _ _ _

theorem GetTextNode_mid1 (pre rest : List SwNode) (a : SwNode) (t : SwTextNode) :
    GetTextNode (pre ++ a :: .textNode t :: rest) (pre.length + 1) = some t := by
  rw [GetTextNode_eq_some]; exact getElem_mid1 _ _ _ _

theorem modify_mid0 (pre rest : List SwNode) (t : SwTextNode) (f : SwTextNode → SwTextNode) :
    modifyTextNode (pre ++ .textNode t :: rest) pre.length f =
      pre ++ .textNode (f t) :: rest := by
  simp only [modifyTextNode, getElem_mid0]
  simp

theorem modify_mid1 (pre rest : List SwNode) (a : SwNode) (t : SwTextNode)
    (f : SwTextNode → SwTextNode) :
    modifyTextNode (pre ++ a :: .textNode t :: rest) (pre.length + 1) f =
      pre ++ a :: .textNode (f t) :: rest := by
  have := modify_mid0 (pre ++ [a]) rest t f
  simpa using this

theorem CanJoinNext_mid (pre rest : List SwNode) (a : SwNode) (u : SwTextNode) :
    CanJoinNext (pre ++ a :: .textNode u :: rest) pre.length = some (pre.length + 1) := by
  simp [CanJoinNext, drop_mid1, joinNextFrom]

theorem CanJoinPrev_mid (pre rest : List SwNode) (v : SwTextNode) :
    CanJoinPrev (pre ++ .textNode v :: rest) (pre.length + 1) = some pre.length := by
  simp [CanJoinPrev, take_mid1, joinPrevFrom]

theorem formatStep_shape (s1 : DocState) (pre rest : List SwNode) (T U : SwTextNode)
    (hs : s1.nodes = pre ++ .textNode T :: .textNode U :: rest) :
    ∃ T2 U2,
      (if T.text.length ≠ 0 then FormatToTextAttr s1 (pre.length + 1) pre.length
          else if (GetNoCondAttr U .RES_PARATR_LIST_ID).isNone then
            CopyCollFormat (ChgFormatColl s1 pre.length U.coll) (pre.length + 1) pre.length
          else ChgFormatColl s1 pre.length U.coll).nodes =
        pre ++ .textNode T2 :: .textNode U2 :: rest ∧
      T2.text = T.text ∧ U2.text = U.text ∧
      (if T.text.length ≠ 0 then FormatToTextAttr s1 (pre.length + 1) pre.length
          else if (GetNoCondAttr U .RES_PARATR_LIST_ID).isNone then
            CopyCollFormat (ChgFormatColl s1 pre.length U.coll) (pre.length + 1) pre.length
          else ChgFormatColl s1 pre.length U.coll).sttNdIdx2 = s1.sttNdIdx2 := by
  by_cases hlen : T.text.length ≠ 0
  · simp only [hlen, ne_eq, not_false_eq_true, if_true]
    refine ⟨toTextAttr T, U, ?_, rfl, rfl, rfl⟩
    simp only [FormatToTextAttr, hs, modify_mid0]
  · simp only [hlen, if_false]
    have h3 : (ChgFormatColl s1 pre.length U.coll).nodes =
        pre ++ .textNode { T with coll := U.coll } :: .textNode U :: rest := by
      simp only [ChgFormatColl, hs, modify_mid0]
    by_cases hL : (GetNoCondAttr U .RES_PARATR_LIST_ID).isNone = true
    · simp only [hL, if_true]
      have hU3 : GetTextNode (ChgFormatColl s1 pre.length U.coll).nodes (pre.length + 1) =
          some U := by rw [h3]; exact GetTextNode_mid1 _ _ _ _
      rw [CopyCollFormat_of hU3]
      refine ⟨{ T with coll := U.coll, attrs := overlayAttrs U.attrs T.attrs }, U, ?_,
        rfl, rfl, rfl⟩
      simp only [h3, modify_mid0]
    · simp only [hL, if_false, Bool.false_eq_true]
      exact ⟨_, _, h3, rfl, rfl, rfl⟩

/-- The left merge on the shape the splits leave: the node in front and its
next node become one paragraph holding both texts. -/
theorem MergeLeft_shape (s : DocState) (pre rest : List SwNode) (T U : SwTextNode)
    (hs : s.nodes = pre ++ .textNode T :: .textNode U :: rest)
    (hi : s.sttNdIdx = pre.length) (hp : 0 < pre.length) :
    ∃ M, (MergeLeft s).nodes = pre ++ .textNode M :: rest ∧ M.text = T.text ++ U.text ∧
      (MergeLeft s).sttNdIdx2 = joinIdx (pre.length + 1) s.sttNdIdx2 := by
  have h0 : s.sttNdIdx ≠ 0 := by omega
  have hT : GetTextNode s.nodes s.sttNdIdx = some T := by
    rw [hs, hi]; exact GetTextNode_mid0 _ _ _
  have hU : GetTextNode s.nodes (s.sttNdIdx + 1) = some U := by
    rw [hs, hi]; exact GetTextNode_mid1 _ _ _ _
  have hJ : CanJoinNext s.nodes s.sttNdIdx = some (s.sttNdIdx + 1) := by
    rw [hs, hi]; exact CanJoinNext_mid _ _ _ _
  rw [MergeLeft_joinable s T U h0 hT hJ hU]
  have hn1 := Assign_nodes_if s (s.aPam.node = s.sttNdIdx + 1) ⟨s.sttNdIdx, T.text.length⟩
  have hx1 : (if s.aPam.node = s.sttNdIdx + 1 then Assign s ⟨s.sttNdIdx, T.text.length⟩
      else s).sttNdIdx2 = s.sttNdIdx2 := by split <;> rfl
  generalize (if s.aPam.node = s.sttNdIdx + 1 then Assign s ⟨s.sttNdIdx, T.text.length⟩
    else s) = s1 at hn1 hx1 ⊢
  rw [hi]
  obtain ⟨T2, U2, hs2, htx, hux, hx2⟩ := formatStep_shape s1 pre rest T U (hn1.trans hs)
  have hT2 := GetTextNode_mid0 pre (.textNode U2 :: rest) T2
  have hU2 := GetTextNode_mid1 pre rest (.textNode T2) U2
  rw [← hs2] at hT2 hU2
  rw [JoinNext_of hT2 hU2]
  refine ⟨{ text := T2.text ++ U2.text, coll := U2.coll,
            attrs := if T2.text.length = 0 then T2.attrs else U2.attrs,
            hints := T2.hints ++ U2.hints.map (shiftHint T2.text.length) }, ?_, ?_, ?_⟩
  · show List.take _ _ ++ _ :: List.drop _ _ = _
    rw [hs2, take_mid0, drop_mid2]
  · simp [htx, hux]
  · show joinIdx _ _ = _
    rw [hx2, hx1]

/-- The right merge on the shape the left merge leaves: the node behind and
its previous node become one paragraph holding both texts. -/
theorem MergeRight_shape (s : DocState) (pre rest : List SwNode) (V S : SwTextNode)
    (hs : s.nodes = pre ++ .textNode V :: .textNode S :: rest)
    (hi : s.sttNdIdx2 = pre.length + 1) :
    ∃ M, (MergeRight s).nodes = pre ++ .textNode M :: rest ∧ M.text = V.text ++ S.text := by
  have hS : GetTextNode s.nodes s.sttNdIdx2 = some S := by
    rw [hs, hi]; exact GetTextNode_mid1 _ _ _ _
  have hV : GetTextNode s.nodes pre.length = some V := by
    rw [hs]; exact GetTextNode_mid0 _ _ _
  have hJ : CanJoinPrev s.nodes s.sttNdIdx2 = some pre.length := by
    rw [hs, hi]; exact CanJoinPrev_mid _ _ _
  have key : ∀ s2 : DocState, (∃ V2 S2, s2.nodes = pre ++ .textNode V2 :: .textNode S2 :: rest ∧
      V2.text = V.text ∧ S2.text = S.text) →
      ∃ M, (JoinPrev s2 (pre.length + 1)).nodes = pre ++ .textNode M :: rest ∧
        M.text = V.text ++ S.text := by
    rintro s2 ⟨V2, S2, h2, hv, hs'⟩
    have hV2 : GetTextNode s2.nodes (pre.length + 1 - 1) = some V2 := by
      rw [h2]; exact GetTextNode_mid0 _ _ _
    have hS2 : GetTextNode s2.nodes (pre.length + 1) = some S2 := by
      rw [h2]; exact GetTextNode_mid1 _ _ _ _
    simp only [JoinPrev, Nat.zero_lt_succ, if_true, hV2, hS2]
    refine ⟨{ text := V2.text ++ S2.text, coll := V2.coll,
              attrs := if S2.text.length = 0 then S2.attrs else V2.attrs,
              hints := V2.hints ++ S2.hints.map (shiftHint V2.text.length) }, ?_, ?_⟩
    · show List.take _ _ ++ _ :: List.drop _ _ = _
      rw [h2, Nat.add_sub_cancel, take_mid0, drop_mid2]
    · simp [hv, hs']
  simp only [MergeRight, hi, Nat.add_sub_cancel, ne_eq, Nat.add_one_ne_zero, not_false_eq_true,
    if_true, hi ▸ hS, hi ▸ hJ, hV]
  split
  · apply key
    exact ⟨V, toTextAttr S, by
      simp only [FormatToTextAttr, hs, modify_mid1], rfl, rfl⟩
  · apply key
    exact ⟨V, { S with coll := V.coll }, by
      simp only [ChgFormatColl, hs, modify_mid1], rfl, rfl⟩

theorem SplitNode_of {s : DocState} {pos : SwPosition} {t : SwTextNode}
    (ht : GetTextNode s.nodes pos.node = some t) (hk : pos.content ≤ t.text.length) :
    SplitNode s pos =
      { nodes := s.nodes.take pos.node ++
          .textNode { text := t.text.take pos.content, coll := t.coll, attrs := t.attrs,
                      hints := hintsBefore pos.content t.hints } ::
          .textNode { text := t.text.drop pos.content, coll := RES_POOLCOLL_STANDARD,
                      attrs := t.attrs, hints := hintsAfter pos.content t.hints } ::
          s.nodes.drop (pos.node + 1),
        rPam := splitPos pos.node pos.content s.rPam,
        xInsertPosition := splitPos pos.node pos.content s.xInsertPosition,
        sttNdIdx := splitIdx pos.node s.sttNdIdx,
        sttNdIdx2 := splitIdx pos.node s.sttNdIdx2,
        aPam := splitPos pos.node pos.content s.aPam,
        calls := s.calls ++ [.SplitNode pos] } := by
  simp only [SplitNode, ht, hk, if_true]

/-- The two splits at a position inside a paragraph: the paragraph becomes the
text before the offset, an empty gap paragraph and the text from the offset
on; the node in front and the node behind are remembered, the cursor stands in
the gap and the marker at the start of the node behind. -/
theorem splitTwice_shape (pre post : List SwNode) (t : SwTextNode) (k : Nat)
    (hk : k ≤ t.text.length) :
    ∃ L G S,
      (splitTwice (pre ++ .textNode t :: post) ⟨pre.length, k⟩).nodes =
        pre ++ .textNode L :: .textNode G :: .textNode S :: post ∧
      L.text = t.text.take k ∧ G.text = [] ∧ S.text = t.text.drop k ∧
      (splitTwice (pre ++ .textNode t :: post) ⟨pre.length, k⟩).sttNdIdx = pre.length ∧
      (splitTwice (pre ++ .textNode t :: post) ⟨pre.length, k⟩).sttNdIdx2 = pre.length + 2 ∧
      (splitTwice (pre ++ .textNode t :: post) ⟨pre.length, k⟩).rPam = ⟨pre.length + 1, 0⟩ ∧
      (splitTwice (pre ++ .textNode t :: post) ⟨pre.length, k⟩).xInsertPosition =
        ⟨pre.length + 2, 0⟩ := by
  have e1 := @SplitNode_of
    { nodes := pre ++ .textNode t :: post, rPam := ⟨pre.length, k⟩,
      xInsertPosition := ⟨pre.length, k⟩, sttNdIdx := 0, sttNdIdx2 := 0,
      aPam := ⟨0, 0⟩, calls := [] }
    ⟨pre.length, k⟩ t (GetTextNode_mid0 pre post t) hk
  simp only [take_mid0, drop_mid1, splitPos, Nat.lt_irrefl, if_true, if_false,
    Nat.sub_self] at e1
  have hR := GetTextNode_mid1 pre post
    (.textNode { text := t.text.take k, coll := t.coll, attrs := t.attrs,
                 hints := hintsBefore k t.hints })
    { text := t.text.drop k, coll := RES_POOLCOLL_STANDARD, attrs := t.attrs,
      hints := hintsAfter k t.hints }
  simp only [splitTwice, e1]
  rw [@SplitNode_of _ ⟨pre.length + 1, 0⟩ _ hR (Nat.zero_le _)]
  simp only [take_mid1, drop_mid2, splitPos, Nat.lt_irrefl, if_true, if_false,
    Nat.sub_self, Nat.add_sub_cancel, List.take_zero, List.drop_zero,
    List.append_assoc, List.singleton_append, splitIdx, Nat.lt_succ_self,
    Move_fnMoveBackward, GoPrevious, GetTextNode_mid1, List.length_nil,
    SetTextFormatColl, modify_mid1, Nat.add_lt_add_iff_left, Nat.lt_add_one]
  exact ⟨_, _, _, rfl, rfl, rfl, rfl, trivial, trivial, trivial, trivial⟩

/-- Both joins on the shape the splits leave (whatever the importer put into
the gap paragraph): one paragraph remains, holding the three texts in order,
and every other node is as it was. -/
theorem reconcile_shape (s : DocState) (pre post : List SwNode) (L G S : SwTextNode)
    (hs : s.nodes = pre ++ .textNode L :: .textNode G :: .textNode S :: post)
    (h1 : s.sttNdIdx = pre.length) (h2 : s.sttNdIdx2 = pre.length + 2)
    (hp : 0 < pre.length) :
    ∃ M, (reconcile s).nodes = pre ++ .textNode M :: post ∧
      M.text = L.text ++ G.text ++ S.text := by
  obtain ⟨M1, hn, ht, hx⟩ := MergeLeft_shape (XTextRangeToSwPaM s) pre (.textNode S :: post)
    L G hs h1 hp
  have hx2 : (MergeLeft (XTextRangeToSwPaM s)).sttNdIdx2 = pre.length + 1 := by
    rw [hx]
    show joinIdx (pre.length + 1) s.sttNdIdx2 = _
    rw [h2]; simp [joinIdx]
  obtain ⟨M, hm, hmt⟩ := MergeRight_shape _ pre post M1 S hn hx2
  exact ⟨M, hm, by rw [hmt, ht]⟩

theorem nodes_decomp {nodes : List SwNode} {i : Nat} {t : SwTextNode}
    (h : GetTextNode nodes i = some t) :
    nodes = nodes.take i ++ .textNode t :: nodes.drop (i + 1) ∧ (nodes.take i).length = i := by
  have hlt := GetTextNode_lt h
  rw [GetTextNode_eq_some] at h
  have hget : nodes[i] = .textNode t := by
    have := List.getElem?_eq_getElem hlt
    rw [this] at h
    exact Option.some.inj h
  constructor
  · rw [← hget, ← List.drop_eq_getElem_cons hlt, List.take_append_drop]
  · simp [List.length_take]; omega

theorem docText_mid (pre post : List SwNode) (t : SwTextNode) :
    docText (pre ++ .textNode t :: post) = docText pre ++ t.text ++ docText post := by
  simp [docText, nodeText]

/-- The splits and the joins around an importer that leaves the document as
it got it: the paragraph is one node again with its text, all other nodes are
untouched. -/
theorem reconcile_splitTwice (nodes : List SwNode) (rPam : SwPosition) (t : SwTextNode)
    (hi : 0 < rPam.node) (ht : GetTextNode nodes rPam.node = some t)
    (hk : rPam.content ≤ t.text.length) :
    ∃ M, (reconcile (splitTwice nodes rPam)).nodes =
        nodes.take rPam.node ++ .textNode M :: nodes.drop (rPam.node + 1) ∧
      M.text = t.text := by
  obtain ⟨hd, hl⟩ := nodes_decomp ht
  obtain ⟨L, G, S, hs, hL, hG, hS, i1, i2, -, -⟩ :=
    splitTwice_shape (nodes.take rPam.node) (nodes.drop (rPam.node + 1)) t rPam.content hk
  have hpos : (⟨(nodes.take rPam.node).length, rPam.content⟩ : SwPosition) = rPam := by
    rw [hl]
  rw [← hd, hpos] at hs i1 i2
  obtain ⟨M, hm, hmt⟩ := reconcile_shape (splitTwice nodes rPam) _ _ L G S hs i1 i2
    (by rw [hl]; exact hi)
  exact ⟨M, hm, by rw [hmt, hL, hG, hS]; simp⟩

/-! ## Text content across Read -/

/-- C3, refuted as stated: the importer puts "X" into the gap of "AB" and then
raises a `uno::Exception`.  `Read` returns the error code, both joins run, and
the document reads "AXB": nothing takes the imported text out again. -/
theorem Read_failed_import_keeps_imported_text :
    filterOutcome [] (putText ['X'] .unoException) docAB ⟨1, 1⟩ = .unoException ∧
      (Read (some []) envOk (putText ['X'] .unoException) docAB ⟨1, 1⟩).exit =
        .returned .ERR_SWG_READ_ERROR ∧
      docText docAB = ['A', 'B'] ∧
      docText (Read (some []) envOk (putText ['X'] .unoException) docAB ⟨1, 1⟩).doc.nodes =
        ['A', 'X', 'B'] ∧
      docText (Read (some []) envOk (putText ['X'] .unoException) docAB ⟨1, 1⟩).doc.nodes ≠
        docText docAB := by
  decide

/-- C3, amended: for every document and every insert position inside a
paragraph (node index at least 1, offset at most the length of the text), if
the importer raises a `uno::Exception` and leaves the document as the splits
made it, `Read` returns the error code, the total text of the document is the
text before the call, and no gap node is left: the split paragraph is one node
again with its text, every other node is untouched. -/
theorem Read_failed_import_untouched_restores (strm : SvStream) (env : Env) (filter : Filter)
    (nodes : List SwNode) (rPam : SwPosition) (t : SwTextNode)
    (henv : env.ok = true) (hi : 0 < rPam.node)
    (ht : GetTextNode nodes rPam.node = some t) (hk : rPam.content ≤ t.text.length)
    (hfail : filterOutcome strm filter nodes rPam = .unoException)
    (hsame : afterFilter strm filter nodes rPam = splitTwice nodes rPam) :
    (Read (some strm) env filter nodes rPam).exit = .returned .ERR_SWG_READ_ERROR ∧
      docText (Read (some strm) env filter nodes rPam).doc.nodes = docText nodes ∧
      ∃ M, (Read (some strm) env filter nodes rPam).doc.nodes =
          nodes.take rPam.node ++ .textNode M :: nodes.drop (rPam.node + 1) ∧
        M.text = t.text := by
  obtain ⟨M, hm, hmt⟩ := reconcile_splitTwice nodes rPam t hi ht hk
  rw [Read_of_ok strm env filter nodes rPam henv, hfail, hsame]
  refine ⟨rfl, ?_, M, hm, hmt⟩
  show docText (reconcile (splitTwice nodes rPam)).nodes = _
  rw [hm, docText_mid, hmt, ← docText_mid, ← (nodes_decomp ht).1]

/-- C3 amended, at "AB" split after the A with an importer that fails at
once. -/
theorem Read_failed_import_untouched_restores_witness :
    envOk.ok = true ∧ 0 < (1 : Nat) ∧
      GetTextNode docAB 1 = some nodeAB ∧
      filterOutcome [] failUntouched docAB ⟨1, 1⟩ = .unoException ∧
      afterFilter [] failUntouched docAB ⟨1, 1⟩ = splitTwice docAB ⟨1, 1⟩ ∧
      (Read (some []) envOk failUntouched docAB ⟨1, 1⟩).exit = .returned .ERR_SWG_READ_ERROR ∧
      docText (Read (some []) envOk failUntouched docAB ⟨1, 1⟩).doc.nodes = docText docAB :=
  ⟨by decide, by decide, by decide, by decide, by decide,
    (Read_failed_import_untouched_restores [] envOk failUntouched docAB ⟨1, 1⟩
      nodeAB
      (by decide) (by decide) (by decide) (by decide) (by decide) (by decide)).1,
    (Read_failed_import_untouched_restores [] envOk failUntouched docAB ⟨1, 1⟩
      nodeAB
      (by decide) (by decide) (by decide) (by decide) (by decide) (by decide)).2.1⟩

/-- C4: for every document and every insert position inside a paragraph (node
index at least 1, offset from 0 up to the length of the text, both ends
included), `Read` with an importer that inserts nothing and returns leaves the
text content unchanged: the two splits followed by the two joins give back the
concatenated text, the split paragraph is one node again holding its original
text, and every other node is untouched. -/
theorem Read_empty_content_keeps_text (strm : SvStream) (env : Env) (filter : Filter)
    (nodes : List SwNode) (rPam : SwPosition) (t : SwTextNode)
    (henv : env.ok = true) (hi : 0 < rPam.node)
    (ht : GetTextNode nodes rPam.node = some t) (hk : rPam.content ≤ t.text.length)
    (hret : ∃ ok, filterOutcome strm filter nodes rPam = .returned ok)
    (hsame : afterFilter strm filter nodes rPam = splitTwice nodes rPam) :
    (Read (some strm) env filter nodes rPam).exit = .returned .ERRCODE_NONE ∧
      docText (Read (some strm) env filter nodes rPam).doc.nodes = docText nodes ∧
      ∃ M, (Read (some strm) env filter nodes rPam).doc.nodes =
          nodes.take rPam.node ++ .textNode M :: nodes.drop (rPam.node + 1) ∧
        M.text = t.text := by
  obtain ⟨M, hm, hmt⟩ := reconcile_splitTwice nodes rPam t hi ht hk
  obtain ⟨ok, hret⟩ := hret
  rw [Read_of_ok strm env filter nodes rPam henv, hret, hsame]
  refine ⟨rfl, ?_, M, hm, hmt⟩
  show docText (reconcile (splitTwice nodes rPam)).nodes = _
  rw [hm, docText_mid, hmt, ← docText_mid, ← (nodes_decomp ht).1]

/-- C4, at offset 0 of "AB", where the node in front of the gap is empty. -/
theorem Read_empty_content_keeps_text_witness :
    envOk.ok = true ∧ 0 < (1 : Nat) ∧
      GetTextNode docAB 1 = some nodeAB ∧
      (∃ ok, filterOutcome [] emptyContent docAB ⟨1, 0⟩ = .returned ok) ∧
      afterFilter [] emptyContent docAB ⟨1, 0⟩ = splitTwice docAB ⟨1, 0⟩ ∧
      (Read (some []) envOk emptyContent docAB ⟨1, 0⟩).exit = .returned .ERRCODE_NONE ∧
      docText (Read (some []) envOk emptyContent docAB ⟨1, 0⟩).doc.nodes = docText docAB :=
  ⟨by decide, by decide, by decide, ⟨true, by decide⟩, by decide,
    (Read_empty_content_keeps_text [] envOk emptyContent docAB ⟨1, 0⟩
      nodeAB
      (by decide) (by decide) (by decide) (by decide) ⟨true, by decide⟩ (by decide)).1,
    (Read_empty_content_keeps_text [] envOk emptyContent docAB ⟨1, 0⟩
      nodeAB
      (by decide) (by decide) (by decide) (by decide) ⟨true, by decide⟩ (by decide)).2.1⟩

/-- C5: for a document of one paragraph with text s, a cursor offset k with
k at most the length of s, and an importer that places the plain text x into
the gap paragraph and returns, `Read` returns `ERRCODE_NONE` and the document
is one paragraph again whose text is the first k characters of s, then x, then
the rest of s. -/
theorem Read_single_paragraph_splices (strm : SvStream) (env : Env) (t : SwTextNode)
    (k : Nat) (x : List Char) (ok : Bool) (henv : env.ok = true)
    (hk : k ≤ t.text.length) :
    (Read (some strm) env (putText x (.returned ok)) (singleParagraph t) ⟨1, k⟩).exit =
        .returned .ERRCODE_NONE ∧
      ∃ M, (Read (some strm) env (putText x (.returned ok)) (singleParagraph t)
            ⟨1, k⟩).doc.nodes = singleParagraph M ∧
        M.text = t.text.take k ++ x ++ t.text.drop k := by
  have hshape := splitTwice_shape [.otherNode] [.otherNode] t k hk
  have e1 : [SwNode.otherNode] ++ SwNode.textNode t :: [SwNode.otherNode] = singleParagraph t :=
    rfl
  have e2 : [SwNode.otherNode].length = 1 := rfl
  rw [e1, e2] at hshape
  obtain ⟨L, G, S, hs, hL, hG, hS, i1, i2, hr, -⟩ := hshape
  have hout : filterOutcome strm (putText x (.returned ok)) (singleParagraph t) ⟨1, k⟩ =
      .returned ok := by
    simp only [filterOutcome, putText]
  have haft : afterFilter strm (putText x (.returned ok)) (singleParagraph t) ⟨1, k⟩ =
      { splitTwice (singleParagraph t) ⟨1, k⟩ with
        nodes := modifyTextNode (splitTwice (singleParagraph t) ⟨1, k⟩).nodes
          (splitTwice (singleParagraph t) ⟨1, k⟩).rPam.node (fun g => { g with text := x }) } := by
    simp only [afterFilter, putText, aDescriptor]
  rw [Read_of_ok strm env _ _ _ henv, hout, haft]
  generalize splitTwice (singleParagraph t) ⟨1, k⟩ = s4 at hs i1 i2 hr
  obtain ⟨M, hm, hmt⟩ := reconcile_shape
    { s4 with nodes := modifyTextNode s4.nodes s4.rPam.node (fun g => { g with text := x }) }
    [.otherNode] [.otherNode] L { G with text := x } S
    (by
      show modifyTextNode s4.nodes s4.rPam.node _ = _
      rw [hs, hr]
      exact modify_mid1 [.otherNode] _ _ _ _)
    i1 i2 (by decide)
  exact ⟨rfl, M, hm, by rw [hmt, hL, hS]⟩

/-- C5, at the case of the specification: "AB", the cursor between the A and
the B, the importer inserts "X"; the result is the single paragraph "AXB". -/
theorem Read_single_paragraph_splices_witness :
    envOk.ok = true ∧ 1 ≤ nodeAB.text.length ∧
      (Read (some []) envOk (putText ['X'] (.returned true)) docAB ⟨1, 1⟩).exit =
        .returned .ERRCODE_NONE ∧
      (∃ M, (Read (some []) envOk (putText ['X'] (.returned true)) docAB ⟨1, 1⟩).doc.nodes =
          singleParagraph M ∧
        M.text = nodeAB.text.take 1 ++ ['X'] ++ nodeAB.text.drop 1) ∧
      docText (Read (some []) envOk (putText ['X'] (.returned true)) docAB ⟨1, 1⟩).doc.nodes =
        ['A', 'X', 'B'] :=
  ⟨by decide, by decide,
    (Read_single_paragraph_splices [] envOk
      nodeAB 1 ['X'] true
      (by decide) (by decide)).1,
    (Read_single_paragraph_splices [] envOk
      nodeAB 1 ['X'] true
      (by decide) (by decide)).2,
    by decide⟩

end SwRTF
